import Mathlib

/-!
rwbin: literal classification, byte encoding and command line

A shallow embedding of `src/rwbin.cpp`.

* A C string (`char*`, `std::string`) is a `List Char`; a C `char` is the Lean
  `Char` with the same code, so every byte string is covered. `strlen` is
  `List.length`, and `arg[i]` is `charAt arg i`, which reads the terminating
  NUL at `i = strlen(arg)`.
* `int` is `Int`; the only place where the width matters is `std::stoi`,
  which raises `out_of_range` outside `[-2^31, 2^31 - 1]`.
* The file system and standard output are an explicit `World`; `main` takes
  `argv` as a list of strings, `argc` being its length.
-/

namespace Rwbin

/-! ## Data model -/

/-- The `DataType` enumeration of the source. -/
inductive DataType where
  | NONE
  | DECIMAL
  | HEX
  | BINARY
  | TEXT
  deriving DecidableEq, Repr

open DataType

/-- The apostrophe character, code 39. -/
def apostrophe : Char := Char.ofNat 39

/-- Indexing `arg[i]` of a NUL-terminated string: past the last character the
terminator is read. -/
def charAt (arg : List Char) (i : Nat) : Char := arg.getD i (Char.ofNat 0)

/-! ## Character classes of `<ctype.h>` (C locale) -/

/-- `isdigit`: the ten characters `0` to `9`. -/
def isdigit (c : Char) : Bool := decide (48 ≤ c.toNat) && decide (c.toNat ≤ 57)

/-- `toupper`: lower-case ASCII letters are moved to upper case, every other
character is returned unchanged. -/
def toupper (c : Char) : Char :=
  if 97 ≤ c.toNat ∧ c.toNat ≤ 122 then Char.ofNat (c.toNat - 32) else c

/-- `tolower`: upper-case ASCII letters are moved to lower case, every other
character is returned unchanged. -/
def tolower (c : Char) : Char :=
  if 65 ≤ c.toNat ∧ c.toNat ≤ 90 then Char.ofNat (c.toNat + 32) else c

/-- `isspace`: space, and the control characters `\t \n \v \f \r`. -/
def isspace (c : Char) : Bool := decide (c.toNat = 32) || (decide (9 ≤ c.toNat) && decide (c.toNat ≤ 13))

/-! ## Literal classifier -/

/-- `isNumber(val)`: the iterator runs over the leading digits; the value is a
number when it is not empty and the iterator reached the end. -/
def isNumber (val : List Char) : Bool :=
  let it := val.dropWhile isdigit
  !val.isEmpty && it.isEmpty

/-- `isHexDigit(c)`. -/
def isHexDigit (c : Char) : Bool :=
  toupper c == 'A' ||
  toupper c == 'B' ||
  toupper c == 'C' ||
  toupper c == 'D' ||
  toupper c == 'E' ||
  toupper c == 'F' ||
  isdigit c

/-- The loop of the `b` branch of `getDataType` over `arg[2..]`:
`if (arg[i] != '0' || arg[i] != '1') return NONE;`, then `return BINARY`. -/
def binaryLoop : List Char → DataType
  | [] => BINARY
  | c :: rest => if c ≠ '0' ∨ c ≠ '1' then NONE else binaryLoop rest

/-- The loop of the `h` and `0x` branches of `getDataType` over `arg[2..]`:
`if (!isHexDigit(arg[i])) return NONE;`, then `return HEX`. -/
def hexLoop : List Char → DataType
  | [] => HEX
  | c :: rest => if !isHexDigit c then NONE else hexLoop rest

/-- The loop of the bare decimal branch of `getDataType` over the whole token:
`if (!isdigit(arg[i])) return NONE;`, then `return DECIMAL`. -/
def decimalLoop : List Char → DataType
  | [] => DECIMAL
  | c :: rest => if !isdigit c then NONE else decimalLoop rest

/-- The condition `strlen(arg) > 2 && (arg[0] == 'b' || arg[0] == 'h' ||
arg[0] == 'd') && arg[1] == '\''` shared by `getDataType` and
`getValueString`. -/
def isPrefixForm (arg : List Char) : Bool :=
  decide (arg.length > 2) &&
    (charAt arg 0 == 'b' || charAt arg 0 == 'h' || charAt arg 0 == 'd') &&
    charAt arg 1 == apostrophe

/-- The condition `strlen(arg) > 2 && arg[0] == '0' && tolower(arg[1]) == 'x'`
shared by `getDataType` and `getValueString`. -/
def is0xForm (arg : List Char) : Bool :=
  decide (arg.length > 2) && charAt arg 0 == '0' && tolower (charAt arg 1) == 'x'

/-- `getDataType(arg)`. -/
def getDataType (arg : List Char) : DataType :=
  if arg.length < 1 then NONE
  else if isPrefixForm arg then
    if charAt arg 0 == 'b' then binaryLoop (arg.drop 2)
    else if charAt arg 0 == 'd' then
      if isNumber arg then DECIMAL else NONE
    else if charAt arg 0 == 'h' then hexLoop (arg.drop 2)
    else NONE
  else if is0xForm arg then hexLoop (arg.drop 2)
  else if arg.length > 0 then decimalLoop arg
  else NONE

/-- `getValueString(arg)`; `str.substr(2, str.length() - 2)` is the string
without its first two characters. -/
def getValueString (arg : List Char) : List Char :=
  if arg.length < 1 then []
  else if isPrefixForm arg then (arg.drop 2).take (arg.length - 2)
  else if is0xForm arg then (arg.drop 2).take (arg.length - 2)
  else if arg.length > 0 then arg
  else []

/-! ## Number parsing and bit strings -/

/-- The two exceptions `std::stoi` raises. -/
inductive StoiError where
  | invalid_argument
  | out_of_range
  deriving DecidableEq, Repr

/-- The value `strtol` gives a digit character: `0`-`9` are 0 to 9, letters of
either case are 10 to 35. -/
def digitValue (c : Char) : Option Nat :=
  if isdigit c then some (c.toNat - 48)
  else if 97 ≤ c.toNat ∧ c.toNat ≤ 122 then some (c.toNat - 87)
  else if 65 ≤ c.toNat ∧ c.toNat ≤ 90 then some (c.toNat - 55)
  else none

/-- Whether `c` is a digit of the given base. -/
def isDigitOf (base : Nat) (c : Char) : Bool :=
  match digitValue c with
  | some d => decide (d < base)
  | none => false

/-- The number a run of digits denotes in the given base, most significant
digit first. -/
def digitsValue (base : Nat) (ds : List Char) : Nat :=
  ds.foldl (fun acc c => acc * base + (digitValue c).getD 0) 0

/-- `std::stoi(str, 0, base)` for the bases the program uses (10 and 2):
leading white space is skipped, one sign is accepted, the longest run of
digits of the base is converted; no digit raises `invalid_argument`, a value
outside the 32-bit `int` range raises `out_of_range`. A base prefix such as
`0b` is not read as one: the run of digits ends at the letter. -/
def stoi (str : List Char) (base : Nat) : Except StoiError Int :=
  let s1 := str.dropWhile isspace
  let neg := s1.head? == some '-'
  let s2 := if s1.head? == some '-' || s1.head? == some '+' then s1.tail else s1
  let ds := s2.takeWhile (isDigitOf base)
  if ds.isEmpty then .error .invalid_argument
  else
    let v : Int := digitsValue base ds
    let r : Int := if neg then -v else v
    if r < -(2 : Int) ^ 31 ∨ (2 : Int) ^ 31 - 1 < r then .error .out_of_range
    else .ok r

/-- The loop of `decimalToBinary`: `while (n != 0) { r = (n % 2 == 0 ? "0" :
"1") + r; n /= 2; }` with the truncating division of C++. -/
def decimalToBinaryLoop (n : Int) (r : List Char) : List Char :=
  if n = 0 then r
  else decimalToBinaryLoop (n.tdiv 2) ((if n.tmod 2 = 0 then '0' else '1') :: r)
termination_by n.natAbs
decreasing_by
  rw [Int.natAbs_tdiv]
  have h0 : 0 < n.natAbs := Int.natAbs_pos.mpr (by assumption)
  exact Nat.div_lt_self h0 (by decide)

/-- `decimalToBinary(n)`. -/
def decimalToBinary (n : Int) : List Char := decimalToBinaryLoop n []

/-- `hexToBinary(char c)`: the `switch` over `toupper(c)`, with `"0000"` for
every character that is no hex digit. -/
def hexToBinaryChar (c : Char) : List Char :=
  match toupper c with
  | '0' => "0000".toList
  | '1' => "0001".toList
  | '2' => "0010".toList
  | '3' => "0011".toList
  | '4' => "0100".toList
  | '5' => "0101".toList
  | '6' => "0110".toList
  | '7' => "0111".toList
  | '8' => "1000".toList
  | '9' => "1001".toList
  | 'A' => "1010".toList
  | 'B' => "1011".toList
  | 'C' => "1100".toList
  | 'D' => "1101".toList
  | 'E' => "1110".toList
  | 'F' => "1111".toList
  | _ => "0000".toList

/-- `hexToBinary(std::string hexStr)`: `"0000"` first when the number of
characters is odd, then the expansion of each character in turn. -/
def hexToBinary (hexStr : List Char) : List Char :=
  let binStr := if hexStr.length % 2 = 1 then "0000".toList else []
  hexStr.foldl (fun acc c => acc ++ hexToBinaryChar c) binStr

/-! ## The write path -/

/-- The file system and the standard output: the content of each file that
exists, whether a file can be opened for writing, and the lines printed so
far. A byte is a natural number below 256. -/
structure World where
  files : List Char → Option (List Nat)
  canOpen : List Char → Bool
  stdout : List (List Char)

/-- Printing one line, `std::cout << ... << std::endl`. -/
def World.print (w : World) (line : List Char) : World :=
  { w with stdout := w.stdout ++ [line] }

/-- The content of `filename` becomes `bytes`. -/
def World.setFile (w : World) (filename : List Char) (bytes : List Nat) : World :=
  { w with files := fun f => if f = filename then some bytes else w.files f }

/-- `throwInputErrorMsg()`. -/
def throwInputErrorMsg (w : World) : World := w.print "Incorrect input command".toList

/-- `throwFilenameErrorMsg()`. -/
def throwFilenameErrorMsg (w : World) : World := w.print "Incorrect filename".toList

/-- How a call ends: it returns, or `std::stoi` raises an exception that
nothing catches. -/
inductive Outcome where
  | returned
  | threw (e : StoiError)
  deriving DecidableEq, Repr

/-- What a call of `writeBinaryFile` did: how it ended, the bytes it passed to
`of.write` in order, and the world it leaves. -/
structure WriteRun where
  outcome : Outcome
  written : List Nat
  world : World

/-- The conversion of the content to a bit string, lines 222-228: `DECIMAL`
goes through `stoi` and `decimalToBinary`, `HEX` through `hexToBinary`,
`BINARY` is the content itself, any other type leaves `binStr` empty. -/
def buildBinStr (content : List Char) (type : DataType) : Except StoiError (List Char) :=
  if type = DECIMAL then
    match stoi content 10 with
    | .error e => .error e
    | .ok n => .ok (decimalToBinary n)
  else if type = HEX then .ok (hexToBinary content)
  else if type = BINARY then .ok content
  else .ok []

/-- The padding loop `for (int i = 0; i < lim; i++) binStr = "0" + binStr;`. -/
def padLoop : Nat → List Char → List Char
  | 0, binStr => binStr
  | lim + 1, binStr => padLoop lim ('0' :: binStr)

/-- Lines 234-239: when the length is no multiple of 8, `8 - length % 8`
zeros are put in front. -/
def padBinStr (binStr : List Char) : List Char :=
  if binStr.length % 8 ≠ 0 then padLoop (8 - binStr.length % 8) binStr else binStr

/-- `static_cast<char>` of an `int`, as the byte that is written. -/
def toByte (v : Int) : Nat := (v % 256).toNat

/-- The packing loop, lines 245-248: each group `binStr.substr(i, 8)` is
parsed in base 2 and written as one byte. The result is the bytes passed to
`of.write` and the exception of `stoi` that ended the loop, if any. -/
def packLoop : List Char → List Nat × Option StoiError
  | [] => ([], none)
  | c0 :: c1 :: c2 :: c3 :: c4 :: c5 :: c6 :: c7 :: rest =>
    match stoi [c0, c1, c2, c3, c4, c5, c6, c7] 2 with
    | .error e => ([], some e)
    | .ok v => ((toByte v) :: (packLoop rest).1, (packLoop rest).2)
  | group =>
    match stoi group 2 with
    | .error e => ([], some e)
    | .ok v => ([toByte v], none)

/-- `writeBinaryFile(content, type, filename)`. The stream is opened first,
which creates or empties the file; a stream that failed to open drops what is
written to it. When the function returns the stream is closed and the file
holds the bytes written. An exception of `stoi` ends the program without the
stream being flushed, so the file stays as the opening left it. -/
def writeBinaryFile (w : World) (content : List Char) (type : DataType)
    (filename : List Char) : WriteRun :=
  let good := w.canOpen filename
  let w1 := if good then w.setFile filename [] else w
  let w2 := if !good then w1.print "Cannot open file for writing!".toList else w1
  if type = NONE then
    { outcome := .returned, written := [], world := throwInputErrorMsg w2 }
  else
    let w3 := w2.print ("content = ".toList ++ content)
    match buildBinStr content type with
    | .error e => { outcome := .threw e, written := [], world := w3 }
    | .ok binStr =>
      let w4 := w3.print ("binStr = ".toList ++ binStr)
      let w5 := w4.print ("padding = ".toList ++ (Nat.repr (8 - binStr.length % 8)).toList)
      let padded := padBinStr binStr
      let w6 := w5.print ("padded binStr = ".toList ++ padded)
      match packLoop padded with
      | (bytes, some e) => { outcome := .threw e, written := bytes, world := w6 }
      | (bytes, none) =>
        let w7 := if good then w6.setFile filename bytes else w6
        let w8 := if !good then w7.print "Error occurred at writing time!".toList else w7
        { outcome := .returned, written := bytes, world := w8 }

/-! ## The command line -/

/-- `isWriteFlag(arg)`: the argument in lower case is `-w` or `--write`. -/
def isWriteFlag (arg : List Char) : Bool :=
  let str := arg.map tolower
  if str == "-w".toList || str == "--write".toList then true else false

/-- `isReadFlag(arg)`: the argument in lower case is `-r` or `--read`. -/
def isReadFlag (arg : List Char) : Bool :=
  let str := arg.map tolower
  if str == "-r".toList || str == "--read".toList then true else false

/-- The characters of the bracket of the filename regex,
`< > : ; , ? " * | /`. -/
def fileNameBracket : List Char := "<>:;,?\"*|/".toList

/-- `isFileName(arg)`: `std::regex_match` of the whole argument against
`^[^<>:;,?"*|/]+$`, one or more characters none of which is in the bracket. -/
def isFileName (arg : List Char) : Bool :=
  !arg.isEmpty && arg.all (fun c => !fileNameBracket.contains c)

/-- `throwHelpMsg()`: the lines of the help text. -/
def throwHelpMsg (w : World) : World :=
  [ "Command format: ",
    "  rwbin [-h | --help]",
    "  rwbin [-r | --read] <filename>",
    "  rwbin [-w | --write] <value> [filename]",
    "Examples:",
    "  rwbin -h                   -- shows help page",
    "  rwbin -r dec.bin           -- reads file and prints contents",
    "  rwbin -w 255 dec.bin       -- writes decimal value '255' as binary to file 'dec.bin'",
    "  rwbin 255 dec.bin          -- same as above. if no specifier is provided, decimal is assumed.",
    "  rwbin 0xFAB0 hex.bin       -- writes hex value 0xFAB0 as binary to file 'hex.bin'",
    "  rwbin b'01101010 byte.bin  -- writes '01101010' as binary to file 'byte.bin'",
    "  rwbin h'00FF hex.bin       -- writes hex value 0x0FF as binary to file 'hex.bin'",
    "  rwbin d'10 dec.bin         -- writes decimal value '10' as binary to file 'dec.bin'"
  ].foldl (fun acc line => acc.print line.toList) w

/-- `printBinaryFile(filename)`: the stream is opened on the fixed name
`student.dat` for reading and writing, which needs the file to exist and to be
writable; nothing is read, and a failed opening is reported. -/
def printBinaryFile (w : World) (_filename : List Char) : World :=
  let rf := (w.files "student.dat".toList).isSome && w.canOpen "student.dat".toList
  if !rf then w.print "Cannot open file!".toList else w

/-- How `main` ends: with an exit code, or by an exception of `stoi` that
nothing catches. -/
inductive MainOutcome where
  | exited (code : Int)
  | threw (e : StoiError)
  deriving DecidableEq, Repr

/-- What a run of `main` did: how it ended and the world it leaves. -/
structure MainRun where
  outcome : MainOutcome
  world : World

/-- The line `main` prints first: `argc`, and the arguments separated by
`, `. -/
def argvLine (argv : List (List Char)) : List Char :=
  "argc = ".toList ++ (Nat.repr argv.length).toList ++ "  argv = [ ".toList ++
    List.intercalate ", ".toList argv ++ " ]".toList

/-- `argv[i]`. -/
def argAt (argv : List (List Char)) (i : Nat) : List Char := argv.getD i []

/-- What follows a call of `writeBinaryFile` in `main`: when the call returns,
control reaches `return 0`; an exception of `stoi` ends the program. -/
def afterWrite (run : WriteRun) : MainRun :=
  match run.outcome with
  | .returned => { outcome := .exited 0, world := run.world }
  | .threw e => { outcome := .threw e, world := run.world }

/-- Lines 294-304 of `main`, with `value` for `argv[2 - offset]` and `str` for
`argv[3 - offset]`: the file is written under the name given when
`isFileName` accepts it, else under the name with `.bin` appended when
`isFileName` accepts that; else the filename error is printed. -/
def writeBranch (w : World) (value str : List Char) : MainRun :=
  if isFileName str then
    afterWrite (writeBinaryFile w (getValueString value) (getDataType value) str)
  else
    let str := str ++ ".bin".toList
    if isFileName str then
      afterWrite (writeBinaryFile w (getValueString value) (getDataType value) str)
    else
      { outcome := .exited 0, world := throwFilenameErrorMsg w }

/-- `main(argc, argv)`, with `argc` the length of `argv`. -/
def main (w : World) (argv : List (List Char)) : MainRun :=
  let argc := argv.length
  let w0 := w.print (argvLine argv)
  if argc < 2 then
    { outcome := .exited 1, world := throwHelpMsg (throwInputErrorMsg w0) }
  else if (decide (argc ≥ 3) && isWriteFlag (argAt argv 1) &&
        decide (getDataType (argAt argv 2) ≠ NONE)) ||
      (decide (argc ≥ 2) && decide (getDataType (argAt argv 1) ≠ NONE)) then
    let offset :=
      if decide (argc ≥ 2) && decide (getDataType (argAt argv 1) ≠ NONE) then 1 else 0
    if argc ≥ 4 - offset then
      writeBranch w0 (argAt argv (2 - offset)) (argAt argv (3 - offset))
    else
      { outcome := .exited 0, world := w0 }
  else if decide (argc ≥ 3) && isReadFlag (argAt argv 1) && isFileName (argAt argv 2) then
    { outcome := .exited 0, world := printBinaryFile w0 (argAt argv 2) }
  else
    { outcome := .exited 1, world := throwHelpMsg (throwInputErrorMsg w0) }

/-! ## Vocabulary of the specification

The notions the claims are stated with. They are written from the words of the
specification and do not use the functions above. -/

/-- A decimal digit, `[0-9]`. -/
def isDigitChar (c : Char) : Prop := c ∈ "0123456789".toList

/-- A hex digit of either case, `[0-9A-Fa-f]`. -/
def isHexChar (c : Char) : Prop := c ∈ "0123456789abcdefABCDEF".toList

/-- A binary digit, `[01]`. -/
def isBitChar (c : Char) : Prop := c ∈ "01".toList

instance (c : Char) : Decidable (isDigitChar c) := by unfold isDigitChar; infer_instance

instance (c : Char) : Decidable (isHexChar c) := by unfold isHexChar; infer_instance

instance (c : Char) : Decidable (isBitChar c) := by unfold isBitChar; infer_instance

/-- A token of the form `b'`, `h'` or `d'` followed by at least one
character. -/
def PrefixToken (token : List Char) : Prop :=
  ∃ letter payload, (letter = 'b' ∨ letter = 'h' ∨ letter = 'd') ∧ payload ≠ [] ∧
    token = letter :: apostrophe :: payload

/-- A token `0x` or `0X` followed by one or more hex digits. -/
def ZeroXToken (token : List Char) : Prop :=
  ∃ x digits, (x = 'x' ∨ x = 'X') ∧ digits ≠ [] ∧ (∀ c ∈ digits, isHexChar c) ∧
    token = '0' :: x :: digits

/-- A non-empty string of decimal digits. -/
def DigitsToken (token : List Char) : Prop :=
  token ≠ [] ∧ ∀ c ∈ token, isDigitChar c

/-- The value of a string of decimal digits, read in base 10. -/
def decimalValue (p : List Char) : Nat :=
  p.foldl (fun acc c => acc * 10 + (c.toNat - '0'.toNat)) 0

/-- The value of one hex digit. -/
def hexDigitValue (c : Char) : Nat :=
  if c.toNat ≤ '9'.toNat then c.toNat - '0'.toNat
  else if c.toNat ≤ 'F'.toNat then c.toNat - 'A'.toNat + 10
  else c.toNat - 'a'.toNat + 10

/-- The value of a string of hex digits, read in base 16. -/
def hexValue (p : List Char) : Nat :=
  p.foldl (fun acc c => acc * 16 + hexDigitValue c) 0

/-- The value of a string of binary digits, read in base 2. -/
def bitsValue (s : List Char) : Nat :=
  s.foldl (fun acc c => acc * 2 + (if c = '1' then 1 else 0)) 0

/-- The value of a byte sequence read as a big-endian base-256 number. -/
def beValue (bytes : List Nat) : Nat :=
  bytes.foldl (fun acc b => acc * 256 + b) 0

/-- The character of one bit. -/
def bitChar (b : Nat) : Char := if b % 2 = 1 then '1' else '0'

/-- The 4-bit expansion of a number below 16, most significant bit first. -/
def nibbleBits (d : Nat) : List Char :=
  [bitChar (d / 8), bitChar (d / 4), bitChar (d / 2), bitChar d]

/-- The 8-bit big-endian expansion of a byte. -/
def byteBits (b : Nat) : List Char :=
  [bitChar (b / 128), bitChar (b / 64), bitChar (b / 32), bitChar (b / 16),
   bitChar (b / 8), bitChar (b / 4), bitChar (b / 2), bitChar b]

/-- The `i`-th group of 8 characters of a string. -/
def group8 (s : List Char) (i : Nat) : List Char := (s.drop (8 * i)).take 8

/-- A world in which no file exists, every file can be opened and nothing was
printed. -/
def emptyWorld : World :=
  { files := fun _ => none, canOpen := fun _ => true, stdout := [] }

/-- A payload that is well formed for its type: one or more digits of the base
of the type. The types `NONE` and `TEXT` have no payload syntax. -/
def WellFormed (p : List Char) : DataType → Prop
  | DECIMAL => p ≠ [] ∧ ∀ c ∈ p, isDigitChar c
  | HEX => p ≠ [] ∧ ∀ c ∈ p, isHexChar c
  | BINARY => p ≠ [] ∧ ∀ c ∈ p, isBitChar c
  | NONE => True
  | TEXT => True

/-- The lines a call printed: the output after the call without the output
before it. -/
def printedBy (w : World) (run : WriteRun) : List (List Char) :=
  run.world.stdout.drop w.stdout.length

/-- A call that failed: it wrote no byte and printed the input error message,
or `stoi` raised an exception. -/
def Failed (w : World) (run : WriteRun) : Prop :=
  (run.written = [] ∧ "Incorrect input command".toList ∈ printedBy w run) ∨
    ∃ e, run.outcome = .threw e

/-- One of the characters `< > : ; , ? " * | /` that a filename may not
contain. -/
def isForbiddenChar (c : Char) : Prop :=
  c ∈ "<>:;,?*|/".toList ∨ c = Char.ofNat 34

instance (c : Char) : Decidable (isForbiddenChar c) := by unfold isForbiddenChar; infer_instance

/-- A world with one file, of the given name and content, in which every file
can be opened and nothing was printed. -/
def worldWithFile (name : List Char) (bytes : List Nat) : World :=
  { files := fun f => if f = name then some bytes else none,
    canOpen := fun _ => true, stdout := [] }

/-! ## Characters -/

theorem char_mem_ascii (c : Char) (h : c.toNat < 128) :
    c ∈ (List.range 128).map Char.ofNat :=
  List.mem_map.mpr ⟨c.toNat, List.mem_range.mpr h, Char.ofNat_toNat c⟩

theorem char_ne_of_toNat_ne {c d : Char} (h : c.toNat ≠ d.toNat) : c ≠ d :=
  fun e => h (by rw [e])

theorem toupper_of_ge (c : Char) (h : 128 ≤ c.toNat) : toupper c = c := by
  unfold toupper; rw [if_neg]; omega

theorem tolower_of_ge (c : Char) (h : 128 ≤ c.toNat) : tolower c = c := by
  unfold tolower; rw [if_neg]; omega

theorem beq_ascii_of_ge (c d : Char) (h : 128 ≤ c.toNat) (hd : d.toNat < 128) :
    (c == d) = false := by
  rw [beq_eq_false_iff_ne]
  exact char_ne_of_toNat_ne (by omega)

theorem isHexChar_ascii (c : Char) (h : isHexChar c) : c.toNat < 128 := by
  have all : ∀ d ∈ "0123456789abcdefABCDEF".toList, d.toNat < 128 := by decide
  exact all c h

theorem isDigitChar_ascii (c : Char) (h : isDigitChar c) : c.toNat < 128 := by
  have all : ∀ d ∈ "0123456789".toList, d.toNat < 128 := by decide
  exact all c h

set_option maxRecDepth 100000 in
theorem isHexDigit_iff (c : Char) : isHexDigit c = true ↔ isHexChar c := by
  by_cases hc : c.toNat < 128
  · have all : ∀ d ∈ (List.range 128).map Char.ofNat, (isHexDigit d = true ↔ isHexChar d) := by
      decide
    exact all c (char_mem_ascii c hc)
  · have hge : 128 ≤ c.toNat := by omega
    have hfalse : isHexDigit c = false := by
      unfold isHexDigit isdigit
      rw [toupper_of_ge c hge, beq_ascii_of_ge c 'A' hge (by decide),
        beq_ascii_of_ge c 'B' hge (by decide), beq_ascii_of_ge c 'C' hge (by decide),
        beq_ascii_of_ge c 'D' hge (by decide), beq_ascii_of_ge c 'E' hge (by decide),
        beq_ascii_of_ge c 'F' hge (by decide)]
      simp only [Bool.false_or, Bool.and_eq_false_imp, decide_eq_true_eq, decide_eq_false_iff_not]
      omega
    rw [hfalse]
    exact ⟨fun h => (by cases h), fun h => absurd (isHexChar_ascii c h) hc⟩

set_option maxRecDepth 100000 in
theorem isdigit_iff (c : Char) : isdigit c = true ↔ isDigitChar c := by
  by_cases hc : c.toNat < 128
  · have all : ∀ d ∈ (List.range 128).map Char.ofNat, (isdigit d = true ↔ isDigitChar d) := by
      decide
    exact all c (char_mem_ascii c hc)
  · have hfalse : isdigit c = false := by
      unfold isdigit
      simp only [Bool.and_eq_false_imp, decide_eq_true_eq, decide_eq_false_iff_not]
      omega
    rw [hfalse]
    exact ⟨fun h => (by cases h), fun h => absurd (isDigitChar_ascii c h) hc⟩

set_option maxRecDepth 100000 in
theorem tolower_eq_x_iff (c : Char) : (tolower c == 'x') = true ↔ (c = 'x' ∨ c = 'X') := by
  by_cases hc : c.toNat < 128
  · have all : ∀ d ∈ (List.range 128).map Char.ofNat,
        ((tolower d == 'x') = true ↔ (d = 'x' ∨ d = 'X')) := by
      decide
    exact all c (char_mem_ascii c hc)
  · have hge : 128 ≤ c.toNat := by omega
    rw [tolower_of_ge c hge, beq_ascii_of_ge c 'x' hge (by decide)]
    constructor
    · intro h; cases h
    · rintro (h | h) <;> (subst h; revert hge; decide)

/-! ## The loops of the classifier -/

theorem hexLoop_eq (l : List Char) :
    hexLoop l = if l.all isHexDigit then HEX else NONE := by
  induction l with
  | nil => rfl
  | cons c rest ih =>
    unfold hexLoop
    cases h : isHexDigit c <;> simp [h, ih]

theorem decimalLoop_eq (l : List Char) :
    decimalLoop l = if l.all isdigit then DECIMAL else NONE := by
  induction l with
  | nil => rfl
  | cons c rest ih =>
    unfold decimalLoop
    cases h : isdigit c <;> simp [h, ih]

theorem hexLoop_eq_HEX_iff (l : List Char) : hexLoop l = HEX ↔ ∀ c ∈ l, isHexChar c := by
  rw [hexLoop_eq]
  constructor
  · intro h c hc
    by_cases ha : l.all isHexDigit = true
    · exact (isHexDigit_iff c).mp (List.all_eq_true.mp ha c hc)
    · rw [if_neg ha] at h; cases h
  · intro h
    rw [if_pos]
    exact List.all_eq_true.mpr (fun c hc => (isHexDigit_iff c).mpr (h c hc))

theorem hexLoop_cases (l : List Char) : hexLoop l = HEX ∨ hexLoop l = NONE := by
  rw [hexLoop_eq]; split <;> simp

theorem decimalLoop_eq_DECIMAL_iff (l : List Char) :
    decimalLoop l = DECIMAL ↔ ∀ c ∈ l, isDigitChar c := by
  rw [decimalLoop_eq]
  constructor
  · intro h c hc
    by_cases ha : l.all isdigit = true
    · exact (isdigit_iff c).mp (List.all_eq_true.mp ha c hc)
    · rw [if_neg ha] at h; cases h
  · intro h
    rw [if_pos]
    exact List.all_eq_true.mpr (fun c hc => (isdigit_iff c).mpr (h c hc))

theorem decimalLoop_cases (l : List Char) : decimalLoop l = DECIMAL ∨ decimalLoop l = NONE := by
  rw [decimalLoop_eq]; split <;> simp

theorem binaryLoop_cons (c : Char) (rest : List Char) : binaryLoop (c :: rest) = NONE := by
  unfold binaryLoop
  by_cases h : c = '0'
  · subst h; simp
  · simp [h]

/-! ## Tokens of the prefix form -/

theorem isPrefixForm_iff (arg : List Char) : isPrefixForm arg = true ↔ PrefixToken arg := by
  constructor
  · intro h
    match arg, h with
    | a :: b :: c :: rest, h =>
      simp only [isPrefixForm, charAt, List.getD_cons_zero, List.getD_cons_succ,
        Bool.and_eq_true, Bool.or_eq_true, beq_iff_eq, decide_eq_true_eq] at h
      refine ⟨a, c :: rest, or_assoc.mp h.1.2, by simp, ?_⟩
      rw [h.2]
  · rintro ⟨letter, payload, hl, hp, rfl⟩
    cases payload with
    | nil => exact absurd rfl hp
    | cons c rest =>
      simp only [isPrefixForm, charAt, List.getD_cons_zero, List.getD_cons_succ,
        Bool.and_eq_true, Bool.or_eq_true, beq_iff_eq, decide_eq_true_eq]
      exact ⟨⟨by simp, or_assoc.mpr hl⟩, trivial⟩

theorem getDataType_h (payload : List Char) (hne : payload ≠ []) :
    getDataType ('h' :: apostrophe :: payload) = hexLoop payload := by
  have hp : isPrefixForm ('h' :: apostrophe :: payload) = true :=
    (isPrefixForm_iff _).mpr ⟨'h', payload, Or.inr (Or.inl rfl), hne, rfl⟩
  unfold getDataType
  rw [if_neg (by simp), if_pos hp]
  simp [charAt]

theorem getDataType_b (payload : List Char) (hne : payload ≠ []) :
    getDataType ('b' :: apostrophe :: payload) = NONE := by
  have hp : isPrefixForm ('b' :: apostrophe :: payload) = true :=
    (isPrefixForm_iff _).mpr ⟨'b', payload, Or.inl rfl, hne, rfl⟩
  unfold getDataType
  rw [if_neg (by simp), if_pos hp]
  cases payload with
  | nil => exact absurd rfl hne
  | cons c rest => simp [charAt, binaryLoop_cons]

theorem isNumber_d (rest : List Char) : isNumber ('d' :: rest) = false := by
  have hd : isdigit 'd' = false := by decide
  simp [isNumber, List.dropWhile, hd]

theorem getDataType_d (payload : List Char) (hne : payload ≠ []) :
    getDataType ('d' :: apostrophe :: payload) = NONE := by
  have hp : isPrefixForm ('d' :: apostrophe :: payload) = true :=
    (isPrefixForm_iff _).mpr ⟨'d', payload, Or.inr (Or.inr rfl), hne, rfl⟩
  unfold getDataType
  rw [if_neg (by simp), if_pos hp]
  simp [charAt, isNumber_d]

theorem getValueString_prefix (letter : Char) (payload : List Char)
    (hl : letter = 'b' ∨ letter = 'h' ∨ letter = 'd') (hne : payload ≠ []) :
    getValueString (letter :: apostrophe :: payload) = payload := by
  have hp : isPrefixForm (letter :: apostrophe :: payload) = true :=
    (isPrefixForm_iff _).mpr ⟨letter, payload, hl, hne, rfl⟩
  unfold getValueString
  rw [if_neg (by simp), if_pos hp]
  simp

/-! ## Tokens of the `0x` form and bare digits -/

theorem is0xForm_iff (arg : List Char) :
    is0xForm arg = true ↔
      ∃ x digits, (x = 'x' ∨ x = 'X') ∧ digits ≠ [] ∧ arg = '0' :: x :: digits := by
  constructor
  · intro h
    match arg, h with
    | a :: b :: c :: rest, h =>
      simp only [is0xForm, charAt, List.getD_cons_zero, List.getD_cons_succ,
        Bool.and_eq_true, beq_iff_eq, decide_eq_true_eq] at h
      refine ⟨b, c :: rest, (tolower_eq_x_iff b).mp (by simpa using h.2), by simp, ?_⟩
      rw [h.1.2]
  · rintro ⟨x, digits, hx, hd, rfl⟩
    cases digits with
    | nil => exact absurd rfl hd
    | cons c rest =>
      simp only [is0xForm, charAt, List.getD_cons_zero, List.getD_cons_succ,
        Bool.and_eq_true, beq_iff_eq, decide_eq_true_eq]
      exact ⟨⟨by simp, trivial⟩, by simpa using (tolower_eq_x_iff x).mpr hx⟩

theorem getDataType_unprefixed (token : List Char) (h : ¬ PrefixToken token) :
    getDataType token =
      if token.length < 1 then NONE
      else if is0xForm token then hexLoop (token.drop 2)
      else if token.length > 0 then decimalLoop token
      else NONE := by
  have hp : ¬ (isPrefixForm token = true) := fun e => h ((isPrefixForm_iff token).mp e)
  unfold getDataType
  rw [if_neg hp]

theorem getValueString_unprefixed (token : List Char) (h : ¬ PrefixToken token) :
    getValueString token =
      if token.length < 1 then []
      else if is0xForm token then (token.drop 2).take (token.length - 2)
      else if token.length > 0 then token
      else [] := by
  have hp : ¬ (isPrefixForm token = true) := fun e => h ((isPrefixForm_iff token).mp e)
  unfold getValueString
  rw [if_neg hp]

theorem not_is0xForm_of_digits (token : List Char) (h : ∀ c ∈ token, isDigitChar c) :
    ¬ (is0xForm token = true) := by
  intro e
  obtain ⟨x, digits, hx, -, rfl⟩ := (is0xForm_iff token).mp e
  have hd : isDigitChar x := h x (by simp)
  rcases hx with rfl | rfl <;> revert hd <;> decide

theorem getDataType_eq_HEX_iff (token : List Char) (h : ¬ PrefixToken token) :
    getDataType token = HEX ↔ ZeroXToken token := by
  rw [getDataType_unprefixed token h]
  constructor
  · intro e
    split at e
    · cases e
    · split at e
      · rename_i h0
        obtain ⟨x, digits, hx, hd, rfl⟩ := (is0xForm_iff token).mp h0
        exact ⟨x, digits, hx, hd, (hexLoop_eq_HEX_iff digits).mp (by simpa using e), rfl⟩
      · split at e
        · rcases decimalLoop_cases token with h1 | h1 <;> rw [h1] at e <;> cases e
        · cases e
  · rintro ⟨x, digits, hx, hd, hall, rfl⟩
    have h0 : is0xForm ('0' :: x :: digits) = true :=
      (is0xForm_iff _).mpr ⟨x, digits, hx, hd, rfl⟩
    rw [if_neg (by simp), if_pos h0]
    simpa using (hexLoop_eq_HEX_iff digits).mpr hall

theorem getDataType_eq_DECIMAL_iff (token : List Char) (h : ¬ PrefixToken token) :
    getDataType token = DECIMAL ↔ DigitsToken token := by
  rw [getDataType_unprefixed token h]
  constructor
  · intro e
    split at e
    · cases e
    · rename_i hlen
      split at e
      · rcases hexLoop_cases (token.drop 2) with h1 | h1 <;> rw [h1] at e <;> cases e
      · split at e
        · refine ⟨?_, (decimalLoop_eq_DECIMAL_iff token).mp e⟩
          intro hnil
          rw [hnil] at hlen
          simp at hlen
        · cases e
  · rintro ⟨hne, hall⟩
    have hlen : 0 < token.length := List.length_pos.mpr hne
    rw [if_neg (by omega), if_neg (not_is0xForm_of_digits token hall), if_pos hlen]
    exact (decimalLoop_eq_DECIMAL_iff token).mpr hall

theorem getDataType_not_prefix_cases (token : List Char) (h : ¬ PrefixToken token) :
    getDataType token = HEX ∨ getDataType token = DECIMAL ∨ getDataType token = NONE := by
  rw [getDataType_unprefixed token h]
  split
  · simp
  · split
    · rcases hexLoop_cases (token.drop 2) with h1 | h1 <;> simp [h1]
    · split
      · rcases decimalLoop_cases token with h1 | h1 <;> simp [h1]
      · simp

/-! ## Values of digit strings -/

theorem bitsValue_append (a b : List Char) :
    bitsValue (a ++ b) = bitsValue a * 2 ^ b.length + bitsValue b := by
  induction b using List.reverseRecOn with
  | nil => simp [bitsValue]
  | append_singleton l c ih =>
    have e : bitsValue (a ++ (l ++ [c])) = bitsValue (a ++ l) * 2 + (if c = '1' then 1 else 0) := by
      rw [← List.append_assoc]
      simp [bitsValue, List.foldl_append]
    have e2 : bitsValue (l ++ [c]) = bitsValue l * 2 + (if c = '1' then 1 else 0) := by
      simp [bitsValue, List.foldl_append]
    rw [e, e2, ih, List.length_append, List.length_singleton, pow_succ]
    ring

theorem bitsValue_lt (s : List Char) : bitsValue s < 2 ^ s.length := by
  induction s using List.reverseRecOn with
  | nil => simp [bitsValue]
  | append_singleton l c ih =>
    have hc : bitsValue [c] ≤ 1 := by
      simp only [bitsValue, List.foldl_cons, List.foldl_nil]
      split <;> simp
    rw [bitsValue_append, List.length_append]
    simp only [List.length_singleton, pow_succ, pow_zero, one_mul]
    generalize 2 ^ l.length = x at ih ⊢
    omega

theorem beValue_cons (b : Nat) (bytes : List Nat) :
    beValue (b :: bytes) = b * 256 ^ bytes.length + beValue bytes := by
  induction bytes using List.reverseRecOn with
  | nil => simp [beValue]
  | append_singleton l c ih =>
    have e : beValue (b :: (l ++ [c])) = beValue (b :: l) * 256 + c := by
      rw [← List.cons_append]
      simp [beValue, List.foldl_append]
    have e2 : beValue (l ++ [c]) = beValue l * 256 + c := by
      simp [beValue, List.foldl_append]
    rw [e, e2, ih, List.length_append, List.length_singleton, pow_succ]
    ring

theorem beValue_lt (bytes : List Nat) (h : ∀ b ∈ bytes, b < 256) :
    beValue bytes < 256 ^ bytes.length := by
  induction bytes with
  | nil => simp [beValue]
  | cons b rest ih =>
    have hb : b < 256 := h b (by simp)
    have hr := ih (fun x hx => h x (by simp [hx]))
    rw [beValue_cons, List.length_cons, pow_succ]
    nlinarith

theorem digitValue_of_digit (c : Char) (h : isDigitChar c) :
    digitValue c = some (c.toNat - '0'.toNat) ∧ isDigitOf 10 c = true := by
  have all : ∀ d ∈ "0123456789".toList,
      digitValue d = some (d.toNat - '0'.toNat) ∧ isDigitOf 10 d = true := by decide
  exact all c h

theorem digitValue_of_bit (c : Char) (h : isBitChar c) :
    digitValue c = some (if c = '1' then 1 else 0) ∧ isDigitOf 2 c = true := by
  have all : ∀ d ∈ "01".toList,
      digitValue d = some (if d = '1' then 1 else 0) ∧ isDigitOf 2 d = true := by decide
  exact all c h

theorem digitsValue_decimal (p : List Char) (h : ∀ c ∈ p, isDigitChar c) :
    digitsValue 10 p = decimalValue p := by
  unfold digitsValue decimalValue
  apply List.foldl_ext
  intro a c hc
  rw [(digitValue_of_digit c (h c hc)).1]
  rfl

theorem digitsValue_bits (s : List Char) (h : ∀ c ∈ s, isBitChar c) :
    digitsValue 2 s = bitsValue s := by
  unfold digitsValue bitsValue
  apply List.foldl_ext
  intro a c hc
  rw [(digitValue_of_bit c (h c hc)).1]
  rfl

/-! ## `stoi` on a run of digits -/

theorem isDigitOf_plain (base : Nat) (c : Char) (h : isDigitOf base c = true) :
    isspace c = false ∧ c ≠ '-' ∧ c ≠ '+' := by
  have hv : 48 ≤ c.toNat := by
    by_contra hlt
    have hnone : digitValue c = none := by
      unfold digitValue isdigit
      rw [if_neg, if_neg, if_neg]
      · omega
      · omega
      · simp only [Bool.and_eq_true, decide_eq_true_eq]
        omega
    simp [isDigitOf, hnone] at h
  refine ⟨?_, ?_, ?_⟩
  · unfold isspace
    simp only [Bool.or_eq_false_iff, decide_eq_false_iff_not, Bool.and_eq_false_imp,
      decide_eq_true_eq]
    omega
  · intro e; subst e; revert hv; decide
  · intro e; subst e; revert hv; decide

theorem stoi_digits (base : Nat) (ds : List Char) (hne : ds ≠ [])
    (hall : ∀ c ∈ ds, isDigitOf base c = true) :
    stoi ds base =
      if 2 ^ 31 - 1 < digitsValue base ds then .error .out_of_range
      else .ok (digitsValue base ds : Int) := by
  cases ds with
  | nil => exact absurd rfl hne
  | cons c rest =>
    obtain ⟨hs, hm, hp⟩ := isDigitOf_plain base c (hall c (by simp))
    have hdrop : List.dropWhile isspace (c :: rest) = c :: rest :=
      List.dropWhile_cons_of_neg (by simp [hs])
    have htake : List.takeWhile (isDigitOf base) (c :: rest) = c :: rest :=
      List.takeWhile_eq_self_iff.mpr hall
    have h1 : (some c == some '-') = false := by simpa using hm
    have h2 : (some c == some '+') = false := by simpa using hp
    unfold stoi
    simp only [hdrop, List.head?_cons, h1, h2, Bool.or_self, Bool.false_eq_true, if_false,
      htake, List.isEmpty_cons]
    have hnn : (0 : Int) ≤ (digitsValue base (c :: rest) : Int) := Int.ofNat_nonneg _
    by_cases hbig : 2 ^ 31 - 1 < digitsValue base (c :: rest)
    · rw [if_pos hbig, if_pos]
      right
      have : ((2 ^ 31 - 1 : Nat) : Int) < (digitsValue base (c :: rest) : Int) := by
        exact_mod_cast hbig
      norm_num at this ⊢
      exact this
    · rw [if_neg hbig, if_neg]
      have : (digitsValue base (c :: rest) : Int) ≤ ((2 ^ 31 - 1 : Nat) : Int) := by
        exact_mod_cast Nat.le_of_not_lt hbig
      norm_num at this ⊢
      omega

/-! ## `decimalToBinary` -/

theorem decimalToBinaryLoop_zero (r : List Char) : decimalToBinaryLoop 0 r = r := by
  rw [decimalToBinaryLoop]; simp

theorem decimalToBinaryLoop_step (n : Int) (hn : n ≠ 0) (r : List Char) :
    decimalToBinaryLoop n r =
      decimalToBinaryLoop (n.tdiv 2) ((if n.tmod 2 = 0 then '0' else '1') :: r) := by
  rw [decimalToBinaryLoop]; simp [hn]

theorem decimalToBinaryLoop_nat (n : Nat) (hn : n ≠ 0) (r : List Char) :
    decimalToBinaryLoop (n : Int) r =
      decimalToBinaryLoop ((n / 2 : Nat) : Int) (bitChar n :: r) := by
  have hd : (n : Int).tdiv 2 = ((n / 2 : Nat) : Int) := by
    rw [Int.tdiv_eq_ediv (Int.ofNat_nonneg n) (by decide)]; norm_cast
  have hm : (n : Int).tmod 2 = ((n % 2 : Nat) : Int) := by
    rw [Int.tmod_eq_emod (Int.ofNat_nonneg n) (by decide)]; norm_cast
  rw [decimalToBinaryLoop_step _ (by exact_mod_cast hn), hd]
  congr 2
  have e : ((n : Int).tmod 2 = 0) ↔ ¬ (n % 2 = 1) := by
    rw [hm]
    omega
  unfold bitChar
  by_cases h : n % 2 = 1
  · rw [if_pos h, if_neg (fun h2 => (e.mp h2) h)]
  · rw [if_neg h, if_pos (e.mpr h)]

theorem decimalToBinaryLoop_acc (n : Nat) :
    ∀ r, decimalToBinaryLoop (n : Int) r = decimalToBinary (n : Int) ++ r := by
  induction n using Nat.strong_induction_on with
  | _ n ih =>
    intro r
    by_cases hn : n = 0
    · subst hn
      simp [decimalToBinary, decimalToBinaryLoop_zero]
    · have hlt : n / 2 < n := Nat.div_lt_self (Nat.pos_of_ne_zero hn) (by decide)
      unfold decimalToBinary
      rw [decimalToBinaryLoop_nat n hn, decimalToBinaryLoop_nat n hn, ih _ hlt,
        ih _ hlt [bitChar n]]
      simp

theorem decimalToBinary_nat (n : Nat) (hn : n ≠ 0) :
    decimalToBinary (n : Int) = decimalToBinary ((n / 2 : Nat) : Int) ++ [bitChar n] := by
  conv_lhs => unfold decimalToBinary
  rw [decimalToBinaryLoop_nat n hn, decimalToBinaryLoop_acc]

theorem decimalToBinary_zero : decimalToBinary 0 = [] := by
  unfold decimalToBinary; exact decimalToBinaryLoop_zero []

theorem isBitChar_bitChar (b : Nat) : isBitChar (bitChar b) := by
  unfold bitChar; split <;> decide

theorem bitsValue_bitChar (b : Nat) : bitsValue [bitChar b] = b % 2 := by
  unfold bitChar
  by_cases h : b % 2 = 1
  · rw [if_pos h]; simp [bitsValue, h]
  · rw [if_neg h]
    have h0 : b % 2 = 0 := by omega
    rw [h0]
    decide

theorem decimalToBinaryLoop_bits (n : Int) (r : List Char) (hr : ∀ c ∈ r, isBitChar c) :
    ∀ c ∈ decimalToBinaryLoop n r, isBitChar c := by
  induction n, r using decimalToBinaryLoop.induct with
  | case1 r => rw [decimalToBinaryLoop_zero]; exact hr
  | case2 n r hn ih =>
    rw [decimalToBinaryLoop_step n hn]
    apply ih
    intro c hc
    rcases List.mem_cons.mp hc with rfl | hc
    · split <;> decide
    · exact hr c hc

theorem decimalToBinary_bits (n : Int) : ∀ c ∈ decimalToBinary n, isBitChar c :=
  decimalToBinaryLoop_bits n [] (by simp)

theorem bitsValue_decimalToBinary (n : Nat) : bitsValue (decimalToBinary (n : Int)) = n := by
  induction n using Nat.strong_induction_on with
  | _ n ih =>
    by_cases hn : n = 0
    · subst hn
      simp [decimalToBinary_zero, bitsValue]
    · have hlt : n / 2 < n := Nat.div_lt_self (Nat.pos_of_ne_zero hn) (by decide)
      rw [decimalToBinary_nat n hn, bitsValue_append, ih _ hlt, bitsValue_bitChar]
      simp only [List.length_singleton, pow_one]
      omega

theorem head_decimalToBinary (n : Nat) (hn : n ≠ 0) :
    ∃ rest, decimalToBinary (n : Int) = '1' :: rest := by
  induction n using Nat.strong_induction_on with
  | _ n ih =>
    have hlt : n / 2 < n := Nat.div_lt_self (Nat.pos_of_ne_zero hn) (by decide)
    rw [decimalToBinary_nat n hn]
    by_cases h2 : n / 2 = 0
    · rw [h2]
      have h1 : n = 1 := by omega
      subst h1
      exact ⟨[], by simp [decimalToBinary_zero, bitChar]⟩
    · obtain ⟨rest, e⟩ := ih _ hlt h2
      exact ⟨rest ++ [bitChar n], by rw [e]; rfl⟩

theorem length_decimalToBinary (n : Nat) : (decimalToBinary (n : Int)).length = Nat.size n := by
  by_cases hn : n = 0
  · subst hn; simp [decimalToBinary_zero]
  · obtain ⟨rest, e⟩ := head_decimalToBinary n hn
    have hv := bitsValue_decimalToBinary n
    have hlt := bitsValue_lt (decimalToBinary (n : Int))
    rw [hv] at hlt
    have hge : 2 ^ rest.length ≤ n := by
      have := bitsValue_append ['1'] rest
      rw [List.singleton_append, ← e, hv] at this
      have h1 : bitsValue ['1'] = 1 := by decide
      rw [h1] at this
      omega
    have hlen : (decimalToBinary (n : Int)).length = rest.length + 1 := by rw [e]; rfl
    apply le_antisymm
    · rw [hlen]; exact Nat.lt_size.mpr hge
    · exact Nat.size_le.mpr hlt

/-! ## Padding -/

theorem padLoop_eq (lim : Nat) (binStr : List Char) :
    padLoop lim binStr = List.replicate lim '0' ++ binStr := by
  induction lim generalizing binStr with
  | zero => rfl
  | succ k ih =>
    unfold padLoop
    rw [ih, List.replicate_succ']
    simp

theorem padBinStr_eq (s : List Char) :
    padBinStr s = List.replicate ((8 - s.length % 8) % 8) '0' ++ s := by
  unfold padBinStr
  by_cases h : s.length % 8 = 0
  · rw [if_neg (by simpa using h), h]
    rfl
  · rw [if_pos h, padLoop_eq]
    congr 2
    omega

theorem length_padBinStr (s : List Char) : (padBinStr s).length % 8 = 0 := by
  rw [padBinStr_eq, List.length_append, List.length_replicate]
  omega

theorem length_padBinStr_div (s : List Char) : (padBinStr s).length / 8 = (s.length + 7) / 8 := by
  rw [padBinStr_eq, List.length_append, List.length_replicate]
  omega

theorem padBinStr_of_mod (s : List Char) (h : s.length % 8 = 0) : padBinStr s = s := by
  unfold padBinStr
  rw [if_neg (by simpa using h)]

theorem bitsValue_replicate_zero (k : Nat) : bitsValue (List.replicate k '0') = 0 := by
  induction k with
  | zero => rfl
  | succ k ih =>
    rw [List.replicate_succ', bitsValue_append, ih]
    decide

theorem bitsValue_padBinStr (s : List Char) : bitsValue (padBinStr s) = bitsValue s := by
  rw [padBinStr_eq, bitsValue_append, bitsValue_replicate_zero]
  simp

theorem padBinStr_bits (s : List Char) (h : ∀ c ∈ s, isBitChar c) :
    ∀ c ∈ padBinStr s, isBitChar c := by
  rw [padBinStr_eq]
  intro c hc
  rcases List.mem_append.mp hc with h1 | h1
  · rw [(List.mem_replicate.mp h1).2]; decide
  · exact h c h1

/-! ## Packing -/

theorem toByte_natCast (v : Nat) (h : v < 256) : toByte (v : Int) = v := by
  unfold toByte
  omega

theorem stoi_bits (group : List Char) (hne : group ≠ []) (hlen : group.length ≤ 8)
    (hbits : ∀ c ∈ group, isBitChar c) :
    stoi group 2 = .ok (bitsValue group : Int) := by
  rw [stoi_digits 2 group hne (fun c hc => (digitValue_of_bit c (hbits c hc)).2),
    digitsValue_bits group hbits, if_neg]
  have h1 := bitsValue_lt group
  have h2 : 2 ^ group.length ≤ 2 ^ 8 := Nat.pow_le_pow_right (by decide) hlen
  have h3 : (2 : Nat) ^ 8 ≤ 2 ^ 31 - 1 := by decide
  omega

theorem bitsValue_group_lt (group : List Char) (hlen : group.length ≤ 8) :
    bitsValue group < 256 := by
  have h1 := bitsValue_lt group
  have h2 : 2 ^ group.length ≤ 2 ^ 8 := Nat.pow_le_pow_right (by decide) hlen
  have h3 : (2 : Nat) ^ 8 = 256 := by decide
  omega

theorem packLoop_group (c0 c1 c2 c3 c4 c5 c6 c7 : Char) (rest : List Char)
    (hbits : ∀ c ∈ [c0, c1, c2, c3, c4, c5, c6, c7], isBitChar c) :
    packLoop (c0 :: c1 :: c2 :: c3 :: c4 :: c5 :: c6 :: c7 :: rest) =
      (bitsValue [c0, c1, c2, c3, c4, c5, c6, c7] :: (packLoop rest).1, (packLoop rest).2) := by
  rw [packLoop, stoi_bits _ (by simp) (by simp) hbits]
  simp only
  rw [toByte_natCast _ (bitsValue_group_lt _ (by simp))]

set_option maxRecDepth 100000 in
theorem byteBits_bitsValue (c0 c1 c2 c3 c4 c5 c6 c7 : Char)
    (hbits : ∀ c ∈ [c0, c1, c2, c3, c4, c5, c6, c7], isBitChar c) :
    byteBits (bitsValue [c0, c1, c2, c3, c4, c5, c6, c7]) = [c0, c1, c2, c3, c4, c5, c6, c7] := by
  have all : ∀ a0 ∈ "01".toList, ∀ a1 ∈ "01".toList, ∀ a2 ∈ "01".toList, ∀ a3 ∈ "01".toList,
      ∀ a4 ∈ "01".toList, ∀ a5 ∈ "01".toList, ∀ a6 ∈ "01".toList, ∀ a7 ∈ "01".toList,
      byteBits (bitsValue [a0, a1, a2, a3, a4, a5, a6, a7]) = [a0, a1, a2, a3, a4, a5, a6, a7] := by
    decide
  exact all c0 (hbits c0 (by simp)) c1 (hbits c1 (by simp)) c2 (hbits c2 (by simp))
    c3 (hbits c3 (by simp)) c4 (hbits c4 (by simp)) c5 (hbits c5 (by simp))
    c6 (hbits c6 (by simp)) c7 (hbits c7 (by simp))

/-- What the packing loop does on a string of `8 * k` binary digits. -/
theorem packLoop_bits (k : Nat) :
    ∀ s : List Char, s.length = 8 * k → (∀ c ∈ s, isBitChar c) →
      (packLoop s).2 = none ∧ (packLoop s).1.length = k ∧
      beValue (packLoop s).1 = bitsValue s ∧ (∀ b ∈ (packLoop s).1, b < 256) ∧
      (packLoop s).1.flatMap byteBits = s ∧
      (∀ i, i < k → (packLoop s).1[i]? = some (bitsValue (group8 s i))) := by
  induction k with
  | zero =>
    intro s hlen _
    have hs : s = [] := List.length_eq_zero.mp (by simpa using hlen)
    subst hs
    simp [packLoop, beValue, bitsValue]
  | succ k ih =>
    intro s hlen hbits
    match s, hlen, hbits with
    | c0 :: c1 :: c2 :: c3 :: c4 :: c5 :: c6 :: c7 :: rest, hlen, hbits =>
      have hrl : rest.length = 8 * k := by
        simp only [List.length_cons] at hlen
        omega
      have hg : ∀ c ∈ [c0, c1, c2, c3, c4, c5, c6, c7], isBitChar c := by
        intro c hc
        apply hbits
        simp only [List.mem_cons, List.mem_nil_iff, or_false] at hc
        simp only [List.mem_cons]
        tauto
      have hr : ∀ c ∈ rest, isBitChar c := by
        intro c hc
        apply hbits
        simp [hc]
      obtain ⟨e1, e2, e3, e4, e5, e6⟩ := ih rest hrl hr
      rw [packLoop_group c0 c1 c2 c3 c4 c5 c6 c7 rest hg]
      refine ⟨e1, by simp [e2], ?_, ?_, ?_, ?_⟩
      · rw [beValue_cons, e3, e2]
        have := bitsValue_append [c0, c1, c2, c3, c4, c5, c6, c7] rest
        simp only [List.cons_append, List.nil_append] at this
        rw [this, hrl, pow_mul]
        norm_num
      · intro b hb
        rcases List.mem_cons.mp hb with rfl | hb
        · exact bitsValue_group_lt _ (by simp)
        · exact e4 b hb
      · rw [List.flatMap_cons, e5, byteBits_bitsValue c0 c1 c2 c3 c4 c5 c6 c7 hg]
        rfl
      · intro i hi
        cases i with
        | zero => simp [group8]
        | succ j =>
          rw [List.getElem?_cons_succ, e6 j (by omega)]
          have : 8 * (j + 1) = 8 + 8 * j := by ring
          simp [group8, this, ← List.drop_drop]

/-! ## `hexToBinary` -/

theorem foldl_append_flatMap (f : Char → List Char) (l : List Char) :
    ∀ init : List Char, l.foldl (fun acc c => acc ++ f c) init = init ++ l.flatMap f := by
  induction l with
  | nil => intro init; simp
  | cons c rest ih =>
    intro init
    rw [List.foldl_cons, ih, List.flatMap_cons, List.append_assoc]

theorem hexToBinary_eq (p : List Char) :
    hexToBinary p =
      (if p.length % 2 = 1 then "0000".toList else []) ++ p.flatMap hexToBinaryChar := by
  unfold hexToBinary
  exact foldl_append_flatMap hexToBinaryChar p _

theorem hexToBinaryChar_of_hex (c : Char) (h : isHexChar c) :
    hexToBinaryChar c = nibbleBits (hexDigitValue c) ∧ hexDigitValue c < 16 := by
  have all : ∀ d ∈ "0123456789abcdefABCDEF".toList,
      hexToBinaryChar d = nibbleBits (hexDigitValue d) ∧ hexDigitValue d < 16 := by decide
  exact all c h

theorem flatMap_hexToBinaryChar (p : List Char) (h : ∀ c ∈ p, isHexChar c) :
    p.flatMap hexToBinaryChar = p.flatMap (fun c => nibbleBits (hexDigitValue c)) := by
  induction p with
  | nil => rfl
  | cons c rest ih =>
    rw [List.flatMap_cons, List.flatMap_cons, (hexToBinaryChar_of_hex c (h c (by simp))).1,
      ih (fun x hx => h x (by simp [hx]))]

theorem bitsValue_nibbleBits (d : Nat) (h : d < 16) : bitsValue (nibbleBits d) = d := by
  have all : ∀ x ∈ List.range 16, bitsValue (nibbleBits x) = x := by decide
  exact all d (List.mem_range.mpr h)

theorem isBitChar_nibbleBits (d : Nat) : ∀ c ∈ nibbleBits d, isBitChar c := by
  intro c hc
  simp only [nibbleBits, List.mem_cons, List.mem_nil_iff, or_false] at hc
  rcases hc with rfl | rfl | rfl | rfl <;> exact isBitChar_bitChar _

theorem length_flatMap_nibbleBits (p : List Char) :
    (p.flatMap (fun c => nibbleBits (hexDigitValue c))).length = 4 * p.length := by
  induction p with
  | nil => rfl
  | cons c rest ih =>
    rw [List.flatMap_cons, List.length_append, ih, List.length_cons]
    simp only [nibbleBits, List.length_cons, List.length_nil]
    omega

theorem bitsValue_flatMap_nibbleBits (p : List Char) (h : ∀ c ∈ p, isHexChar c) :
    bitsValue (p.flatMap (fun c => nibbleBits (hexDigitValue c))) = hexValue p := by
  induction p using List.reverseRecOn with
  | nil => rfl
  | append_singleton l c ih =>
    have e : hexValue (l ++ [c]) = hexValue l * 16 + hexDigitValue c := by
      simp [hexValue, List.foldl_append]
    rw [List.flatMap_append, bitsValue_append, ih (fun x hx => h x (by simp [hx])), e]
    simp only [List.flatMap_cons, List.flatMap_nil, List.append_nil]
    rw [bitsValue_nibbleBits _ (hexToBinaryChar_of_hex c (h c (by simp))).2]
    simp [nibbleBits]

theorem hexToBinary_spec (p : List Char) (h : ∀ c ∈ p, isHexChar c) :
    hexToBinary p =
      (if p.length % 2 = 1 then "0000".toList else []) ++
        p.flatMap (fun c => nibbleBits (hexDigitValue c)) := by
  rw [hexToBinary_eq, flatMap_hexToBinaryChar p h]

theorem length_hexToBinary (p : List Char) (h : ∀ c ∈ p, isHexChar c) :
    (hexToBinary p).length = 8 * ((p.length + 1) / 2) := by
  rw [hexToBinary_spec p h, List.length_append, length_flatMap_nibbleBits]
  by_cases ho : p.length % 2 = 1
  · rw [if_pos ho]
    simp only [String.toList, List.length_cons, List.length_nil]
    omega
  · rw [if_neg ho]
    simp only [List.length_nil]
    omega

theorem hexToBinary_bits (p : List Char) (h : ∀ c ∈ p, isHexChar c) :
    ∀ c ∈ hexToBinary p, isBitChar c := by
  rw [hexToBinary_spec p h]
  intro c hc
  rcases List.mem_append.mp hc with h1 | h1
  · split at h1
    · have all : ∀ d ∈ "0000".toList, isBitChar d := by decide
      exact all c h1
    · simp at h1
  · obtain ⟨x, -, hx⟩ := List.mem_flatMap.mp h1
    exact isBitChar_nibbleBits _ c hx

theorem bitsValue_hexToBinary (p : List Char) (h : ∀ c ∈ p, isHexChar c) :
    bitsValue (hexToBinary p) = hexValue p := by
  rw [hexToBinary_spec p h, bitsValue_append, bitsValue_flatMap_nibbleBits p h]
  split
  · have : bitsValue "0000".toList = 0 := by decide
    rw [this]; simp
  · simp [bitsValue]

/-! ## `writeBinaryFile` when the conversion and the packing go through -/

theorem writeBinaryFile_returned (w : World) (content : List Char) (type : DataType)
    (filename s : List Char) (ht : type ≠ NONE) (hb : buildBinStr content type = .ok s)
    (hp : (packLoop (padBinStr s)).2 = none) :
    (writeBinaryFile w content type filename).outcome = .returned ∧
    (writeBinaryFile w content type filename).written = (packLoop (padBinStr s)).1 ∧
    (w.canOpen filename = true →
      (writeBinaryFile w content type filename).world.files filename =
        some (packLoop (padBinStr s)).1) ∧
    (w.canOpen filename = true →
      (writeBinaryFile w content type filename).world.stdout =
        w.stdout ++ ["content = ".toList ++ content, "binStr = ".toList ++ s,
          "padding = ".toList ++ (Nat.repr (8 - s.length % 8)).toList,
          "padded binStr = ".toList ++ padBinStr s]) := by
  generalize hq : packLoop (padBinStr s) = q at hp ⊢
  obtain ⟨bytes, err⟩ := q
  simp only at hp
  subst hp
  unfold writeBinaryFile
  simp only [ht, if_false, hb, hq]
  refine ⟨trivial, trivial, ?_, ?_⟩
  · intro ho
    simp [ho, World.setFile, World.print]
  · intro ho
    simp [ho, World.setFile, World.print]

/-! ## The conversion stage -/

theorem stoi_decimal (p : List Char) (hne : p ≠ []) (h : ∀ c ∈ p, isDigitChar c) :
    stoi p 10 =
      if 2 ^ 31 - 1 < decimalValue p then .error .out_of_range
      else .ok (decimalValue p : Int) := by
  rw [stoi_digits 10 p hne (fun c hc => (digitValue_of_digit c (h c hc)).2),
    digitsValue_decimal p h]

theorem buildBinStr_decimal (p : List Char) (hne : p ≠ []) (h : ∀ c ∈ p, isDigitChar c)
    (hhi : decimalValue p ≤ 2 ^ 31 - 1) :
    buildBinStr p DECIMAL = .ok (decimalToBinary (decimalValue p : Int)) := by
  unfold buildBinStr
  rw [if_pos rfl, stoi_decimal p hne h, if_neg (by omega)]

theorem buildBinStr_decimal_overflow (p : List Char) (hne : p ≠ [])
    (h : ∀ c ∈ p, isDigitChar c) (hhi : 2 ^ 31 - 1 < decimalValue p) :
    buildBinStr p DECIMAL = .error .out_of_range := by
  unfold buildBinStr
  rw [if_pos rfl, stoi_decimal p hne h, if_pos hhi]

theorem buildBinStr_hex (p : List Char) : buildBinStr p HEX = .ok (hexToBinary p) := by
  unfold buildBinStr
  rw [if_neg (by decide), if_pos rfl]

theorem buildBinStr_binary (p : List Char) : buildBinStr p BINARY = .ok p := by
  unfold buildBinStr
  rw [if_neg (by decide), if_neg (by decide), if_pos rfl]

/-- What a call does on a bit string that the conversion stage built. -/
theorem writeBinaryFile_bits (w : World) (content : List Char) (type : DataType)
    (filename s : List Char) (ht : type ≠ NONE) (hb : buildBinStr content type = .ok s)
    (hbits : ∀ c ∈ s, isBitChar c) :
    (writeBinaryFile w content type filename).outcome = .returned ∧
    (writeBinaryFile w content type filename).written = (packLoop (padBinStr s)).1 ∧
    (w.canOpen filename = true →
      (writeBinaryFile w content type filename).world.files filename =
        some (writeBinaryFile w content type filename).written) ∧
    (writeBinaryFile w content type filename).written.length = (s.length + 7) / 8 ∧
    beValue (writeBinaryFile w content type filename).written = bitsValue s ∧
    (∀ b ∈ (writeBinaryFile w content type filename).written, b < 256) ∧
    (writeBinaryFile w content type filename).written.flatMap byteBits = padBinStr s ∧
    (∀ i, i < (padBinStr s).length / 8 →
      (writeBinaryFile w content type filename).written[i]? =
        some (bitsValue (group8 (padBinStr s) i))) := by
  have hlen : (padBinStr s).length = 8 * ((padBinStr s).length / 8) := by
    have := length_padBinStr s
    omega
  obtain ⟨p1, p2, p3, p4, p5, p6⟩ :=
    packLoop_bits ((padBinStr s).length / 8) (padBinStr s) hlen (padBinStr_bits s hbits)
  obtain ⟨r1, r2, r3, -⟩ := writeBinaryFile_returned w content type filename s ht hb p1
  rw [r2]
  refine ⟨r1, rfl, r3, ?_, ?_, p4, p5, p6⟩
  · rw [p2, length_padBinStr_div]
  · rw [p3, bitsValue_padBinStr]

/-! ## Claims on the encoder -/

/-- C1: for a payload of decimal digits whose value `n` has `1 ≤ n ≤ 2^31 - 1`,
`writeBinaryFile` with type `DECIMAL` returns, having written the bytes that
packing the padded `decimalToBinary n` gives (they are the content of the file
when it could be opened); read as a big-endian base-256 number these bytes
give `n`, each is below 256, the first one is not zero, and there are
`ceil(bitlength(n) / 8)` of them. -/
theorem decimal_bytes_minimal_big_endian (w : World) (p filename : List Char)
    (hdigits : ∀ c ∈ p, isDigitChar c) (hlo : 1 ≤ decimalValue p)
    (hhi : decimalValue p ≤ 2 ^ 31 - 1) :
    (writeBinaryFile w p DECIMAL filename).outcome = .returned ∧
    (writeBinaryFile w p DECIMAL filename).written =
      (packLoop (padBinStr (decimalToBinary (decimalValue p : Int)))).1 ∧
    (w.canOpen filename = true →
      (writeBinaryFile w p DECIMAL filename).world.files filename =
        some (writeBinaryFile w p DECIMAL filename).written) ∧
    beValue (writeBinaryFile w p DECIMAL filename).written = decimalValue p ∧
    (∀ b ∈ (writeBinaryFile w p DECIMAL filename).written, b < 256) ∧
    (∃ b rest, (writeBinaryFile w p DECIMAL filename).written = b :: rest ∧ b ≠ 0) ∧
    (writeBinaryFile w p DECIMAL filename).written.length =
      (Nat.size (decimalValue p) + 7) / 8 := by
  have hne : p ≠ [] := by
    intro e
    rw [e] at hlo
    exact absurd hlo (by decide)
  obtain ⟨r1, r2, r3, r4, r5, r6, -, -⟩ :=
    writeBinaryFile_bits w p DECIMAL filename _ (by decide)
      (buildBinStr_decimal p hne hdigits hhi) (decimalToBinary_bits _)
  rw [bitsValue_decimalToBinary] at r5
  rw [length_decimalToBinary] at r4
  refine ⟨r1, r2, r3, r5, r6, ?_, r4⟩
  generalize (writeBinaryFile w p DECIMAL filename).written = bytes at r4 r5 r6
  have hsize : 1 ≤ Nat.size (decimalValue p) := Nat.lt_size.mpr (by simpa using hlo)
  cases bytes with
  | nil =>
    simp only [List.length_nil] at r4
    omega
  | cons b rest =>
    refine ⟨b, rest, rfl, ?_⟩
    intro hb0
    rw [beValue_cons, hb0, Nat.zero_mul, Nat.zero_add] at r5
    have hlt : beValue rest < 256 ^ rest.length :=
      beValue_lt rest (fun x hx => r6 x (by simp [hx]))
    have hpow : 2 ^ (Nat.size (decimalValue p) - 1) ≤ decimalValue p :=
      Nat.lt_size.mp (by omega)
    have hexp : 8 * rest.length ≤ Nat.size (decimalValue p) - 1 := by
      simp only [List.length_cons] at r4
      omega
    have hmono : 2 ^ (8 * rest.length) ≤ 2 ^ (Nat.size (decimalValue p) - 1) :=
      Nat.pow_le_pow_right (by decide) hexp
    have h256 : (256 : Nat) ^ rest.length = 2 ^ (8 * rest.length) := by
      rw [pow_mul]; norm_num
    omega

/-- C1, at the payload `10`: one byte, of value 10. -/
theorem decimal_bytes_minimal_big_endian_witness :
    (∀ c ∈ "10".toList, isDigitChar c) ∧ 1 ≤ decimalValue "10".toList ∧
    decimalValue "10".toList ≤ 2 ^ 31 - 1 ∧
    beValue (writeBinaryFile emptyWorld "10".toList DECIMAL "dec.bin".toList).written = 10 ∧
    (writeBinaryFile emptyWorld "10".toList DECIMAL "dec.bin".toList).written.length = 1 := by
  have h := decimal_bytes_minimal_big_endian emptyWorld "10".toList "dec.bin".toList
    (by decide) (by decide) (by decide)
  have hv : decimalValue "10".toList = 10 := by decide
  have hs : Nat.size 10 = 4 :=
    le_antisymm (Nat.size_le.mpr (by decide)) (Nat.lt_size.mpr (by decide))
  rw [hv, hs] at h
  exact ⟨by decide, by decide, by decide, h.2.2.2.1, h.2.2.2.2.2.2⟩

/-- C2: with type `DECIMAL` and content `0` the call returns without having
written a byte: `decimalToBinary(0)` is the empty string, whose length 0 is a
multiple of 8, so nothing is padded and the packing loop does not run; the
file that could be opened is left empty. -/
theorem decimal_zero_writes_no_byte (w : World) (filename : List Char) :
    decimalToBinary 0 = [] ∧ padBinStr [] = [] ∧
    (writeBinaryFile w "0".toList DECIMAL filename).outcome = .returned ∧
    (writeBinaryFile w "0".toList DECIMAL filename).written = [] ∧
    (w.canOpen filename = true →
      (writeBinaryFile w "0".toList DECIMAL filename).world.files filename = some []) := by
  have hb : buildBinStr "0".toList DECIMAL = .ok [] := by
    rw [buildBinStr_decimal "0".toList (by decide) (by decide) (by decide)]
    have hv : decimalValue "0".toList = 0 := by decide
    rw [hv]
    exact congrArg _ decimalToBinary_zero
  obtain ⟨r1, r2, r3, -⟩ :=
    writeBinaryFile_returned w "0".toList DECIMAL filename [] (by decide) hb rfl
  exact ⟨decimalToBinary_zero, rfl, r1, r2, r3⟩

/-- The hex path on the value zero: the payload `0` with type `HEX` writes the
single byte `0x00`. -/
theorem hex_zero_writes_zero_byte :
    (writeBinaryFile emptyWorld "0".toList HEX "hex.bin".toList).written = [0] := by
  decide

/-- C3: for a non-empty payload `p` of hex digits of either case,
`writeBinaryFile` with type `HEX` returns, having written `ceil(len(p) / 2)`
bytes (at least one), each below 256, whose big-endian value is the base-16
value of `p`; they are the content of the file when it could be opened.
`hexToBinary(p)` is `0000` when `len(p)` is odd, followed by the 4-bit
expansion of each digit, and padding leaves it unchanged. -/
theorem hex_bytes_big_endian (w : World) (p filename : List Char) (hne : p ≠ [])
    (hhex : ∀ c ∈ p, isHexChar c) :
    (writeBinaryFile w p HEX filename).outcome = .returned ∧
    (w.canOpen filename = true →
      (writeBinaryFile w p HEX filename).world.files filename =
        some (writeBinaryFile w p HEX filename).written) ∧
    (writeBinaryFile w p HEX filename).written.length = (p.length + 1) / 2 ∧
    (writeBinaryFile w p HEX filename).written ≠ [] ∧
    (∀ b ∈ (writeBinaryFile w p HEX filename).written, b < 256) ∧
    beValue (writeBinaryFile w p HEX filename).written = hexValue p ∧
    hexToBinary p =
      (if p.length % 2 = 1 then "0000".toList else []) ++
        p.flatMap (fun c => nibbleBits (hexDigitValue c)) ∧
    padBinStr (hexToBinary p) = hexToBinary p := by
  obtain ⟨r1, -, r3, r4, r5, r6, -, -⟩ :=
    writeBinaryFile_bits w p HEX filename _ (by decide) (buildBinStr_hex p)
      (hexToBinary_bits p hhex)
  have hl := length_hexToBinary p hhex
  have hlen : (writeBinaryFile w p HEX filename).written.length = (p.length + 1) / 2 := by
    rw [r4, hl]; omega
  refine ⟨r1, r3, hlen, ?_, r6, ?_, hexToBinary_spec p hhex, ?_⟩
  · intro e
    rw [e] at hlen
    have : 0 < p.length := List.length_pos.mpr hne
    simp only [List.length_nil] at hlen
    omega
  · rw [r5, bitsValue_hexToBinary p hhex]
  · exact padBinStr_of_mod _ (by rw [hl]; omega)

/-- C3, at the payloads of the claim: `FF` gives the byte `0xFF`, `F` the byte
`0x0F`, `00FF` the bytes `0x00 0xFF`. -/
theorem hex_bytes_big_endian_witness :
    ("FF".toList ≠ [] ∧ ∀ c ∈ "FF".toList, isHexChar c) ∧
    (writeBinaryFile emptyWorld "FF".toList HEX "hex.bin".toList).written.length = 1 ∧
    (writeBinaryFile emptyWorld "FF".toList HEX "hex.bin".toList).written = [0xFF] ∧
    (writeBinaryFile emptyWorld "F".toList HEX "hex.bin".toList).written = [0x0F] ∧
    hexToBinary "F".toList = "00001111".toList ∧
    (writeBinaryFile emptyWorld "00FF".toList HEX "hex.bin".toList).written = [0x00, 0xFF] :=
  ⟨⟨by decide, by decide⟩,
    (hex_bytes_big_endian emptyWorld "FF".toList "hex.bin".toList (by decide) (by decide)).2.2.1,
    by decide, by decide, by decide, by decide⟩

/-- C4: for a non-empty payload `p` of the characters `0` and `1`,
`writeBinaryFile` with type `BINARY` returns, having written `ceil(len(p) / 8)`
bytes whose 8-bit big-endian expansions, put one after the other, are `p` with
zeros in front up to a multiple of 8; they are the content of the file when
it could be opened. -/
theorem binary_bytes_verbatim (w : World) (p filename : List Char) (hne : p ≠ [])
    (hbits : ∀ c ∈ p, isBitChar c) :
    (writeBinaryFile w p BINARY filename).outcome = .returned ∧
    (w.canOpen filename = true →
      (writeBinaryFile w p BINARY filename).world.files filename =
        some (writeBinaryFile w p BINARY filename).written) ∧
    (writeBinaryFile w p BINARY filename).written.length = (p.length + 7) / 8 ∧
    (writeBinaryFile w p BINARY filename).written ≠ [] ∧
    (writeBinaryFile w p BINARY filename).written.flatMap byteBits =
      List.replicate ((8 - p.length % 8) % 8) '0' ++ p ∧
    (List.replicate ((8 - p.length % 8) % 8) '0' ++ p).length % 8 = 0 := by
  obtain ⟨r1, -, r3, r4, -, -, r7, -⟩ :=
    writeBinaryFile_bits w p BINARY filename p (by decide) (buildBinStr_binary p) hbits
  rw [padBinStr_eq] at r7
  refine ⟨r1, r3, r4, ?_, r7, ?_⟩
  · intro e
    rw [e] at r4
    have : 0 < p.length := List.length_pos.mpr hne
    simp only [List.length_nil] at r4
    omega
  · rw [← padBinStr_eq]; exact length_padBinStr p

/-- C4, at the payload of the claim: `01101010` gives the byte `0x6A`. -/
theorem binary_bytes_verbatim_witness :
    ("01101010".toList ≠ [] ∧ ∀ c ∈ "01101010".toList, isBitChar c) ∧
    (writeBinaryFile emptyWorld "01101010".toList BINARY "byte.bin".toList).written.length = 1 ∧
    (writeBinaryFile emptyWorld "01101010".toList BINARY "byte.bin".toList).written = [0x6A] :=
  ⟨⟨by decide, by decide⟩,
    (binary_bytes_verbatim emptyWorld "01101010".toList "byte.bin".toList
      (by decide) (by decide)).2.2.1,
    by decide⟩

/-- The conversion stage builds a string of binary digits for every type but
`BINARY`, whose string is the content as given. -/
theorem buildBinStr_bits (content : List Char) (type : DataType) (s : List Char)
    (hb : buildBinStr content type = .ok s) (ht : type ≠ BINARY) :
    ∀ c ∈ s, isBitChar c := by
  unfold buildBinStr at hb
  split at hb
  · split at hb
    · cases hb
    · cases hb
      exact decimalToBinary_bits _
  · split at hb
    · cases hb
      rw [hexToBinary_eq]
      intro c hc
      rcases List.mem_append.mp hc with h1 | h1
      · split at h1
        · have all : ∀ d ∈ "0000".toList, isBitChar d := by decide
          exact all c h1
        · simp at h1
      · obtain ⟨x, -, hx⟩ := List.mem_flatMap.mp h1
        revert hx
        unfold hexToBinaryChar
        split <;> intro hx <;>
          exact (by decide : ∀ l ∈ ["0000".toList, "0001".toList, "0010".toList,
            "0011".toList, "0100".toList, "0101".toList, "0110".toList, "0111".toList,
            "1000".toList, "1001".toList, "1010".toList, "1011".toList, "1100".toList,
            "1101".toList, "1110".toList, "1111".toList], ∀ d ∈ l, isBitChar d) _
            (by simp) c hx
    · cases hb
      simp

/-- C5: for the bit string `s` that the conversion stage builds from any
content and type, the padded string has a length divisible by 8 and is `k`
zeros followed by `s`, with `k < 8` and `k = 0` when the length of `s` is a
multiple of 8. `s` consists of binary digits for every type but `BINARY`; when
it does, the call returns having written `len(padded) / 8` bytes, the `i`-th
being the base-2 value of the `i`-th group of 8 characters, and these bytes
are the content of the file when it could be opened. -/
theorem padding_invariant (w : World) (content : List Char) (type : DataType)
    (filename s : List Char) (ht : type ≠ NONE) (hb : buildBinStr content type = .ok s) :
    (padBinStr s).length % 8 = 0 ∧
    (∃ k, k < 8 ∧ (s.length % 8 = 0 → k = 0) ∧ padBinStr s = List.replicate k '0' ++ s) ∧
    (type ≠ BINARY → ∀ c ∈ s, isBitChar c) ∧
    ((∀ c ∈ s, isBitChar c) →
      (writeBinaryFile w content type filename).outcome = .returned ∧
      (writeBinaryFile w content type filename).written.length = (padBinStr s).length / 8 ∧
      (∀ i, i < (padBinStr s).length / 8 →
        (writeBinaryFile w content type filename).written[i]? =
          some (bitsValue (group8 (padBinStr s) i))) ∧
      (writeBinaryFile w content type filename).written.flatMap byteBits = padBinStr s ∧
      (w.canOpen filename = true →
        (writeBinaryFile w content type filename).world.files filename =
          some (writeBinaryFile w content type filename).written)) := by
  refine ⟨length_padBinStr s, ⟨(8 - s.length % 8) % 8, by omega, ?_, padBinStr_eq s⟩,
    buildBinStr_bits content type s hb, ?_⟩
  · intro h; rw [h]
  · intro hbits
    obtain ⟨r1, -, r3, r4, -, -, r7, r8⟩ :=
      writeBinaryFile_bits w content type filename s ht hb hbits
    exact ⟨r1, by rw [r4, length_padBinStr_div], r8, r7, r3⟩

/-- C5, at the content `101101010` of type `BINARY`: seven zeros are put in
front and two bytes are written. -/
theorem padding_invariant_witness :
    BINARY ≠ NONE ∧ buildBinStr "101101010".toList BINARY = .ok "101101010".toList ∧
    padBinStr "101101010".toList = "0000000101101010".toList ∧
    (writeBinaryFile emptyWorld "101101010".toList BINARY "byte.bin".toList).written = [1, 0x6A] ∧
    (padBinStr "101101010".toList).length % 8 = 0 :=
  ⟨by decide, buildBinStr_binary _, by decide, by decide,
    (padding_invariant emptyWorld "101101010".toList BINARY "byte.bin".toList
      "101101010".toList (by decide) (buildBinStr_binary _)).1⟩

/-! ## Claims on the classifier -/

/-- C6: the token `b'01101010` of the usage text is classified `NONE`, not
`BINARY`: the test `arg[i] != '0' || arg[i] != '1'` holds of every character,
so the loop of the `b` branch returns `NONE` at the first payload character.
`getValueString` does return the payload `01101010`. -/
theorem binary_prefix_token_rejected :
    getDataType "b'01101010".toList = NONE ∧
    getDataType "b'01101010".toList ≠ BINARY ∧
    getValueString "b'01101010".toList = "01101010".toList := by
  decide

/-- C7: the token `d'10` of the usage text is classified `NONE`, not
`DECIMAL`: the `d` branch calls `isNumber` on the whole token, whose first
character `d` is no digit. `getValueString` does return the payload `10`. -/
theorem decimal_prefix_token_rejected :
    isNumber "d'10".toList = false ∧ isNumber "10".toList = true ∧
    getDataType "d'10".toList = NONE ∧
    getDataType "d'10".toList ≠ DECIMAL ∧
    getValueString "d'10".toList = "10".toList := by
  decide

/-- C8: for a token `h'` followed by a non-empty payload, `getDataType`
returns `HEX` exactly when every payload character is a hex digit, and `NONE`
otherwise; when it returns `HEX`, `getValueString` returns the payload. -/
theorem hex_prefix_token (payload : List Char) (hne : payload ≠ []) :
    (getDataType ('h' :: apostrophe :: payload) = HEX ↔ ∀ c ∈ payload, isHexChar c) ∧
    ((¬ ∀ c ∈ payload, isHexChar c) → getDataType ('h' :: apostrophe :: payload) = NONE) ∧
    (getDataType ('h' :: apostrophe :: payload) = HEX →
      getValueString ('h' :: apostrophe :: payload) = payload) := by
  rw [getDataType_h payload hne]
  refine ⟨hexLoop_eq_HEX_iff payload, ?_, ?_⟩
  · intro hnot
    rcases hexLoop_cases payload with h | h
    · exact absurd ((hexLoop_eq_HEX_iff payload).mp h) hnot
    · exact h
  · intro _
    exact getValueString_prefix 'h' payload (Or.inr (Or.inl rfl)) hne

/-- C8, at the tokens of the claim: `h'12G4` is `NONE`, `h'00FF` is `HEX` with
payload `00FF`. -/
theorem hex_prefix_token_witness :
    "00FF".toList ≠ [] ∧
    getDataType "h'00FF".toList = HEX ∧
    getValueString "h'00FF".toList = "00FF".toList ∧
    getDataType "h'12G4".toList = NONE :=
  ⟨by decide,
    (hex_prefix_token "00FF".toList (by decide)).1.mpr (by decide),
    (hex_prefix_token "00FF".toList (by decide)).2.2
      ((hex_prefix_token "00FF".toList (by decide)).1.mpr (by decide)),
    (hex_prefix_token "12G4".toList (by decide)).2.1 (by decide)⟩

/-- C9: for a token that is not `b'`, `h'` or `d'` followed by at least one
character, `getDataType` returns `HEX` exactly when the token is `0x` or `0X`
followed by one or more hex digits, and `getValueString` then returns the
token without its first two characters; it returns `DECIMAL` exactly when the
token is a non-empty string of decimal digits, and `getValueString` then
returns the token; in every other case it returns `NONE`. -/
theorem unprefixed_token (token : List Char) (h : ¬ PrefixToken token) :
    (getDataType token = HEX ↔ ZeroXToken token) ∧
    (getDataType token = HEX → getValueString token = token.drop 2) ∧
    (getDataType token = DECIMAL ↔ DigitsToken token) ∧
    (getDataType token = DECIMAL → getValueString token = token) ∧
    (¬ ZeroXToken token → ¬ DigitsToken token → getDataType token = NONE) := by
  have hhex := getDataType_eq_HEX_iff token h
  have hdec := getDataType_eq_DECIMAL_iff token h
  refine ⟨hhex, ?_, hdec, ?_, ?_⟩
  · intro e
    obtain ⟨x, digits, hx, hd, -, rfl⟩ := hhex.mp e
    have h0 : is0xForm ('0' :: x :: digits) = true :=
      (is0xForm_iff _).mpr ⟨x, digits, hx, hd, rfl⟩
    rw [getValueString_unprefixed _ h, if_neg (by simp), if_pos h0]
    simp
  · intro e
    obtain ⟨hne, hall⟩ := hdec.mp e
    have hlen : 0 < token.length := List.length_pos.mpr hne
    rw [getValueString_unprefixed _ h, if_neg (by omega),
      if_neg (not_is0xForm_of_digits token hall), if_pos hlen]
  · intro h1 h2
    rcases getDataType_not_prefix_cases token h with e | e | e
    · exact absurd (hhex.mp e) h1
    · exact absurd (hdec.mp e) h2
    · exact e

theorem not_prefixToken_of_head (c : Char) (rest : List Char)
    (hc : c ≠ 'b' ∧ c ≠ 'h' ∧ c ≠ 'd') : ¬ PrefixToken (c :: rest) := by
  rintro ⟨letter, payload, hl, -, e⟩
  have : c = letter := (List.cons.inj e).1
  subst this
  rcases hl with rfl | rfl | rfl
  · exact hc.1 rfl
  · exact hc.2.1 rfl
  · exact hc.2.2 rfl

theorem not_prefixToken_nil : ¬ PrefixToken [] := by
  rintro ⟨letter, payload, -, -, e⟩
  cases e

/-- C9, at the tokens `0xFAB0` and `255` of the usage text, the empty token
and the bare prefix `0x`. -/
theorem unprefixed_token_witness :
    ¬ PrefixToken "0xFAB0".toList ∧
    getDataType "0xFAB0".toList = HEX ∧
    getValueString "0xFAB0".toList = "FAB0".toList ∧
    getDataType "255".toList = DECIMAL ∧
    getValueString "255".toList = "255".toList ∧
    getDataType [] = NONE ∧
    getDataType "0x".toList = NONE :=
  ⟨not_prefixToken_of_head '0' _ (by decide),
    (unprefixed_token "0xFAB0".toList (not_prefixToken_of_head '0' _ (by decide))).1.mpr
      ⟨'x', "FAB0".toList, Or.inl rfl, by decide, by decide, rfl⟩,
    by decide,
    (unprefixed_token "255".toList (not_prefixToken_of_head '2' _ (by decide))).2.2.1.mpr
      ⟨by decide, by decide⟩,
    by decide,
    (unprefixed_token [] not_prefixToken_nil).2.2.2.2
      (by rintro ⟨x, digits, -, -, -, e⟩; cases e) (fun e => e.1 rfl),
    by decide⟩

/-! ## Failure of the write path -/

theorem printedBy_none (w : World) (content filename : List Char) :
    (writeBinaryFile w content NONE filename).outcome = .returned ∧
    (writeBinaryFile w content NONE filename).written = [] ∧
    "Incorrect input command".toList ∈ printedBy w (writeBinaryFile w content NONE filename) := by
  unfold writeBinaryFile printedBy
  cases w.canOpen filename <;>
    simp [throwInputErrorMsg, World.print, World.setFile]

theorem printedBy_returned (w : World) (content : List Char) (type : DataType)
    (filename s : List Char) (ht : type ≠ NONE) (hb : buildBinStr content type = .ok s)
    (hp : (packLoop (padBinStr s)).2 = none) :
    "Incorrect input command".toList ∉
      printedBy w (writeBinaryFile w content type filename) := by
  generalize hq : packLoop (padBinStr s) = q at hp
  obtain ⟨bytes, err⟩ := q
  simp only at hp
  subst hp
  unfold writeBinaryFile printedBy
  simp only [ht, if_false, hb, hq]
  cases w.canOpen filename <;>
    simp [World.print, World.setFile]

theorem writeBinaryFile_threw (w : World) (content : List Char) (type : DataType)
    (filename : List Char) (e : StoiError) (ht : type ≠ NONE)
    (hb : buildBinStr content type = .error e) :
    (writeBinaryFile w content type filename).outcome = .threw e ∧
    (writeBinaryFile w content type filename).written = [] := by
  unfold writeBinaryFile
  simp only [ht, if_false, hb]
  exact ⟨trivial, trivial⟩

/-- Every well-formed payload of a type other than `NONE` and `TEXT`, the
decimal ones within the `int` range, is converted to a string of binary
digits. -/
theorem buildBinStr_wellFormed (p : List Char) (type : DataType) (hwf : WellFormed p type)
    (ht : type ≠ NONE) (hov : ¬ (type = DECIMAL ∧ 2 ^ 31 - 1 < decimalValue p)) :
    ∃ s, buildBinStr p type = .ok s ∧ ∀ c ∈ s, isBitChar c := by
  cases type with
  | NONE => exact absurd rfl ht
  | DECIMAL =>
    have hhi : decimalValue p ≤ 2 ^ 31 - 1 := by
      by_contra hc
      exact hov ⟨rfl, by omega⟩
    exact ⟨_, buildBinStr_decimal p hwf.1 hwf.2 hhi, decimalToBinary_bits _⟩
  | HEX => exact ⟨_, buildBinStr_hex p, hexToBinary_bits p hwf.2⟩
  | BINARY => exact ⟨_, buildBinStr_binary p, hwf.2⟩
  | TEXT => exact ⟨[], rfl, by simp⟩

/-- The write path fails exactly on `NONE` and on decimal overflow: for a
payload that is well formed for its type, the call wrote no byte and printed
the input error message, or `stoi` raised, if and only if the type is `NONE`
or the type is `DECIMAL` and the value exceeds `2^31 - 1`. -/
theorem writeBinaryFile_failed_iff (w : World) (p : List Char) (type : DataType)
    (filename : List Char) (hwf : WellFormed p type) :
    Failed w (writeBinaryFile w p type filename) ↔
      (type = NONE ∨ (type = DECIMAL ∧ 2 ^ 31 - 1 < decimalValue p)) := by
  constructor
  · intro hf
    by_contra hnot
    have ht : type ≠ NONE := fun e => hnot (Or.inl e)
    have hov : ¬ (type = DECIMAL ∧ 2 ^ 31 - 1 < decimalValue p) := fun e => hnot (Or.inr e)
    obtain ⟨s, hb, hbits⟩ := buildBinStr_wellFormed p type hwf ht hov
    have hlen : (padBinStr s).length = 8 * ((padBinStr s).length / 8) := by
      have := length_padBinStr s
      omega
    have hp := (packLoop_bits _ (padBinStr s) hlen (padBinStr_bits s hbits)).1
    rcases hf with ⟨-, hprint⟩ | ⟨e, he⟩
    · exact printedBy_returned w p type filename s ht hb hp hprint
    · rw [(writeBinaryFile_returned w p type filename s ht hb hp).1] at he
      cases he
  · rintro (rfl | ⟨rfl, hov⟩)
    · exact Or.inl (printedBy_none w p filename).2
    · exact Or.inr ⟨_, (writeBinaryFile_threw w p DECIMAL filename _ (by decide)
        (buildBinStr_decimal_overflow p hwf.1 hwf.2 hov)).1⟩

/-- Every hex payload, every binary payload and every decimal payload of value
between 1 and `2^31 - 1` makes the call return with at least one byte
written. -/
theorem writeBinaryFile_emits (w : World) (p : List Char) (type : DataType)
    (filename : List Char) (hwf : WellFormed p type)
    (ht : type = HEX ∨ type = BINARY ∨
      (type = DECIMAL ∧ 1 ≤ decimalValue p ∧ decimalValue p ≤ 2 ^ 31 - 1)) :
    (writeBinaryFile w p type filename).outcome = .returned ∧
    (writeBinaryFile w p type filename).written ≠ [] := by
  have key : ∀ s, buildBinStr p type = .ok s → (∀ c ∈ s, isBitChar c) → 0 < s.length →
      type ≠ NONE →
      (writeBinaryFile w p type filename).outcome = .returned ∧
      (writeBinaryFile w p type filename).written ≠ [] := by
    intro s hb hbits hpos hnone
    obtain ⟨r1, -, -, r4, -⟩ := writeBinaryFile_bits w p type filename s hnone hb hbits
    refine ⟨r1, ?_⟩
    intro e
    rw [e] at r4
    simp only [List.length_nil] at r4
    omega
  rcases ht with rfl | rfl | ⟨rfl, hlo, hhi⟩
  · apply key _ (buildBinStr_hex p) (hexToBinary_bits p hwf.2) _ (by decide)
    rw [length_hexToBinary p hwf.2]
    have : 0 < p.length := List.length_pos.mpr hwf.1
    omega
  · exact key _ (buildBinStr_binary p) hwf.2 (List.length_pos.mpr hwf.1) (by decide)
  · apply key _ (buildBinStr_decimal p hwf.1 hwf.2 hhi) (decimalToBinary_bits _) _ (by decide)
    rw [length_decimalToBinary]
    exact Nat.lt_size.mpr (by simpa using hlo)

/-- C10: the decimal payload `0` is well formed and within the `int` range,
and the call on it returns without failing, yet it writes no byte. -/
theorem decimal_zero_succeeds_without_bytes :
    WellFormed "0".toList DECIMAL ∧ decimalValue "0".toList ≤ 2 ^ 31 - 1 ∧
    (writeBinaryFile emptyWorld "0".toList DECIMAL "dec.bin".toList).outcome = .returned ∧
    ¬ Failed emptyWorld (writeBinaryFile emptyWorld "0".toList DECIMAL "dec.bin".toList) ∧
    (writeBinaryFile emptyWorld "0".toList DECIMAL "dec.bin".toList).written = [] ∧
    (writeBinaryFile emptyWorld "0".toList DECIMAL "dec.bin".toList).world.files
      "dec.bin".toList = some [] := by
  have hwf : WellFormed "0".toList DECIMAL := ⟨by decide, by decide⟩
  have hb : buildBinStr "0".toList DECIMAL = .ok [] := by
    rw [buildBinStr_decimal "0".toList (by decide) (by decide) (by decide)]
    have hv : decimalValue "0".toList = 0 := by decide
    rw [hv]
    exact congrArg _ decimalToBinary_zero
  obtain ⟨r1, r2, r3, -⟩ :=
    writeBinaryFile_returned emptyWorld "0".toList DECIMAL "dec.bin".toList [] (by decide) hb rfl
  refine ⟨hwf, by decide, r1, ?_, r2, r3 rfl⟩
  intro hf
  have := (writeBinaryFile_failed_iff emptyWorld "0".toList DECIMAL "dec.bin".toList hwf).mp hf
  rcases this with e | ⟨-, e⟩
  · cases e
  · revert e; decide

/-! ## The command line: flags and filenames -/

set_option maxRecDepth 100000 in
theorem tolower_eq_dash (c : Char) (h : tolower c = '-') : c = '-' := by
  by_cases hc : c.toNat < 128
  · have all : ∀ d ∈ (List.range 128).map Char.ofNat, tolower d = '-' → d = '-' := by
      decide
    exact all c (char_mem_ascii c hc) h
  · rw [tolower_of_ge c (by omega)] at h
    exact h

theorem getDataType_dash (rest : List Char) : getDataType ('-' :: rest) = NONE := by
  have hp : isPrefixForm ('-' :: rest) = false := by
    simp [isPrefixForm, charAt]
  have h0 : is0xForm ('-' :: rest) = false := by
    simp [is0xForm, charAt]
  have hd : isdigit '-' = false := by decide
  unfold getDataType
  simp [hp, h0, decimalLoop, hd]

theorem getDataType_of_isWriteFlag (flag : List Char) (h : isWriteFlag flag = true) :
    getDataType flag = NONE := by
  cases flag with
  | nil => revert h; decide
  | cons c rest =>
    have hc : tolower c = '-' := by
      simp [isWriteFlag] at h
      rcases h with h | h <;> exact h.1
    rw [tolower_eq_dash c hc]
    exact getDataType_dash rest

theorem isFileName_iff (f : List Char) :
    isFileName f = true ↔ f ≠ [] ∧ ∀ c ∈ f, ¬ isForbiddenChar c := by
  have hb : ∀ c, fileNameBracket.contains c = true ↔ isForbiddenChar c := by
    intro c
    unfold isForbiddenChar
    have e : fileNameBracket = "<>:;,?".toList ++ Char.ofNat 34 :: "*|/".toList := by decide
    rw [e, List.contains_iff_exists_mem_beq]
    simp only [String.toList, List.mem_append, List.mem_cons, List.mem_nil_iff, or_false,
      beq_iff_eq, exists_eq_right']
    tauto
  unfold isFileName
  simp only [Bool.and_eq_true, Bool.not_eq_true', List.isEmpty_eq_false, List.all_eq_true]
  constructor
  · rintro ⟨h1, h2⟩
    refine ⟨h1, fun c hc hf => ?_⟩
    have := h2 c hc
    rw [(hb c).mpr hf] at this
    cases this
  · rintro ⟨h1, h2⟩
    refine ⟨h1, fun c hc => ?_⟩
    cases hcon : fileNameBracket.contains c
    · rfl
    · exact absurd ((hb c).mp hcon) (h2 c hc)

theorem isFileName_of_forbidden (f : List Char) (c : Char) (hc : c ∈ f)
    (hf : isForbiddenChar c) : isFileName f = false := by
  cases h : isFileName f
  · rfl
  · exact absurd hf (((isFileName_iff f).mp h).2 c hc)

theorem isFileName_append_bin (f : List Char) (hne : f ≠ []) :
    isFileName (f ++ ".bin".toList) = isFileName f := by
  have hbin : ∀ c ∈ ".bin".toList, ¬ isForbiddenChar c := by decide
  have e : isFileName (f ++ ".bin".toList) = true ↔ isFileName f = true := by
    rw [isFileName_iff, isFileName_iff]
    constructor
    · rintro ⟨-, h⟩
      exact ⟨hne, fun c hc => h c (List.mem_append.mpr (Or.inl hc))⟩
    · rintro ⟨-, h⟩
      refine ⟨by simp [hne], fun c hc => ?_⟩
      rcases List.mem_append.mp hc with h1 | h1
      · exact h c h1
      · exact hbin c h1
  cases h1 : isFileName f <;> cases h2 : isFileName (f ++ ".bin".toList) <;> simp_all

/-! ## The command line: the write path of `main` -/

theorem main_value_file (w : World) (prog v f : List Char) (hv : getDataType v ≠ NONE) :
    main w [prog, v, f] = writeBranch (w.print (argvLine [prog, v, f])) v f := by
  unfold main
  simp [argAt, hv]

theorem main_flag_value_file (w : World) (prog flag v f : List Char)
    (hflag : isWriteFlag flag = true) (hv : getDataType v ≠ NONE) :
    main w [prog, flag, v, f] = writeBranch (w.print (argvLine [prog, flag, v, f])) v f := by
  have hnone := getDataType_of_isWriteFlag flag hflag
  unfold main
  simp [argAt, hv, hflag, hnone]

theorem writeBranch_rejected (w : World) (v f : List Char) (h1 : isFileName f = false)
    (h2 : isFileName (f ++ ".bin".toList) = false) :
    writeBranch w v f = { outcome := .exited 0, world := throwFilenameErrorMsg w } := by
  unfold writeBranch
  simp only [h1, h2, Bool.false_eq_true, if_false]

theorem writeBranch_accepted (w : World) (v f : List Char) (h1 : isFileName f = true) :
    writeBranch w v f =
      afterWrite (writeBinaryFile w (getValueString v) (getDataType v) f) := by
  unfold writeBranch
  simp [h1]

theorem writeBranch_retry (w : World) (v f : List Char) (h1 : isFileName f = false)
    (h2 : isFileName (f ++ ".bin".toList) = true) :
    writeBranch w v f =
      afterWrite (writeBinaryFile w (getValueString v) (getDataType v) (f ++ ".bin".toList)) := by
  unfold writeBranch
  simp only [h1, h2, Bool.false_eq_true, if_false, if_true]

/-! ## What `writeBinaryFile` does to the world -/

/-- The file named is emptied by the opening, whatever the call does next, and
holds the bytes written once the call returned. -/
theorem writeBinaryFile_file (w : World) (content : List Char) (type : DataType)
    (filename : List Char) (ho : w.canOpen filename = true) :
    ((writeBinaryFile w content type filename).outcome = .returned →
      (writeBinaryFile w content type filename).world.files filename =
        some (writeBinaryFile w content type filename).written) ∧
    ((writeBinaryFile w content type filename).outcome ≠ .returned →
      (writeBinaryFile w content type filename).world.files filename = some []) := by
  by_cases ht : type = NONE
  · unfold writeBinaryFile
    simp [ho, ht, throwInputErrorMsg, World.print, World.setFile]
  · cases hb : buildBinStr content type with
    | error e =>
      unfold writeBinaryFile
      simp [ho, ht, hb, World.print, World.setFile]
    | ok s =>
      cases hq : packLoop (padBinStr s) with
      | mk bytes err =>
        unfold writeBinaryFile
        cases err <;> simp [ho, ht, hb, hq, World.print, World.setFile]

/-- No other file is touched. -/
theorem writeBinaryFile_other (w : World) (content : List Char) (type : DataType)
    (filename other : List Char) (hne : other ≠ filename) :
    (writeBinaryFile w content type filename).world.files other = w.files other := by
  cases ho : w.canOpen filename <;>
  · by_cases ht : type = NONE
    · unfold writeBinaryFile
      simp [ho, ht, throwInputErrorMsg, World.print, World.setFile, hne]
    · cases hb : buildBinStr content type with
      | error e =>
        unfold writeBinaryFile
        simp [ho, ht, hb, World.print, World.setFile, hne]
      | ok s =>
        cases hq : packLoop (padBinStr s) with
        | mk bytes err =>
          unfold writeBinaryFile
          cases err <;> simp [ho, ht, hb, hq, World.print, World.setFile, hne]

/-- The call reads the world only through its files and `canOpen`: on two
worlds that agree on them it ends the same way, writes the same bytes, leaves
the same files and prints the same lines. -/
theorem writeBinaryFile_congr (w v : World) (content : List Char) (type : DataType)
    (filename : List Char) (hf : w.files = v.files) (hc : w.canOpen = v.canOpen) :
    (writeBinaryFile w content type filename).outcome =
      (writeBinaryFile v content type filename).outcome ∧
    (writeBinaryFile w content type filename).written =
      (writeBinaryFile v content type filename).written ∧
    (writeBinaryFile w content type filename).world.files =
      (writeBinaryFile v content type filename).world.files ∧
    (writeBinaryFile w content type filename).world.canOpen =
      (writeBinaryFile v content type filename).world.canOpen ∧
    printedBy w (writeBinaryFile w content type filename) =
      printedBy v (writeBinaryFile v content type filename) := by
  obtain ⟨wf, wc, ws⟩ := w
  obtain ⟨vf, vc, vs⟩ := v
  simp only at hf hc
  subst hf hc
  cases ho : wc filename <;>
  · by_cases ht : type = NONE
    · unfold writeBinaryFile printedBy
      simp [ho, ht, throwInputErrorMsg, World.print, World.setFile]
    · cases hb : buildBinStr content type with
      | error e =>
        unfold writeBinaryFile printedBy
        simp [ho, ht, hb, World.print, World.setFile]
      | ok s =>
        cases hq : packLoop (padBinStr s) with
        | mk bytes err =>
          unfold writeBinaryFile printedBy
          cases err <;> simp [ho, ht, hb, hq, World.print, World.setFile]

theorem writeBranch_congr (w v : World) (value str : List Char) (hf : w.files = v.files)
    (hc : w.canOpen = v.canOpen) (hs : w.stdout.length = v.stdout.length) :
    (writeBranch w value str).outcome = (writeBranch v value str).outcome ∧
    (writeBranch w value str).world.files = (writeBranch v value str).world.files ∧
    (writeBranch w value str).world.stdout.drop w.stdout.length =
      (writeBranch v value str).world.stdout.drop v.stdout.length := by
  have key : ∀ name,
      (afterWrite (writeBinaryFile w (getValueString value) (getDataType value) name)).outcome =
        (afterWrite (writeBinaryFile v (getValueString value) (getDataType value) name)).outcome ∧
      (afterWrite (writeBinaryFile w (getValueString value) (getDataType value) name)).world.files =
        (afterWrite (writeBinaryFile v (getValueString value) (getDataType value) name)).world.files ∧
      (afterWrite (writeBinaryFile w (getValueString value) (getDataType value)
          name)).world.stdout.drop w.stdout.length =
        (afterWrite (writeBinaryFile v (getValueString value) (getDataType value)
          name)).world.stdout.drop v.stdout.length := by
    intro name
    obtain ⟨c1, -, c3, -, c5⟩ :=
      writeBinaryFile_congr w v (getValueString value) (getDataType value) name hf hc
    unfold printedBy at c5
    unfold afterWrite
    rw [c1]
    cases (writeBinaryFile v (getValueString value) (getDataType value) name).outcome <;>
      exact ⟨rfl, c3, c5⟩
  unfold writeBranch
  by_cases h1 : isFileName str = true
  · simp only [h1, if_true]
    exact key str
  · simp only [h1, if_false]
    by_cases h2 : isFileName (str ++ ".bin".toList) = true
    · simp only [h2, if_true]
      exact key _
    · simp only [h2, if_false]
      refine ⟨rfl, hf, ?_⟩
      simp [throwFilenameErrorMsg, World.print, hs]

theorem afterWrite_world (run : WriteRun) : (afterWrite run).world = run.world := by
  unfold afterWrite
  cases run.outcome <;> rfl

theorem afterWrite_exited (run : WriteRun) (code : Int)
    (h : (afterWrite run).outcome = .exited code) : run.outcome = .returned ∧ code = 0 := by
  unfold afterWrite at h
  cases ho : run.outcome with
  | returned =>
    rw [ho] at h
    simp only [MainOutcome.exited.injEq] at h
    exact ⟨rfl, h.symm⟩
  | threw e =>
    rw [ho] at h
    cases h

/-! ## Claims on the command line -/

/-- C11: a rejected literal does not leave the target file untouched. The
stream is opened before the type is checked and before `stoi` runs, so the
call with type `NONE` and the run on the overflowing decimal `99999999999`
both empty the existing file `out.bin` (and the run creates `new.bin`, which
did not exist). -/
theorem rejected_literal_empties_file :
    (worldWithFile "out.bin".toList [1, 2, 3]).files "out.bin".toList = some [1, 2, 3] ∧
    getDataType "99999999999".toList = DECIMAL ∧
    (main (worldWithFile "out.bin".toList [1, 2, 3])
      ["rwbin".toList, "99999999999".toList, "out.bin".toList]).outcome =
        .threw .out_of_range ∧
    (main (worldWithFile "out.bin".toList [1, 2, 3])
      ["rwbin".toList, "99999999999".toList, "out.bin".toList]).world.files "out.bin".toList =
        some [] ∧
    (writeBinaryFile (worldWithFile "out.bin".toList [1, 2, 3])
      "99999999999".toList DECIMAL "out.bin".toList).world.files "out.bin".toList = some [] ∧
    (writeBinaryFile (worldWithFile "out.bin".toList [1, 2, 3])
      "zz".toList NONE "out.bin".toList).world.files "out.bin".toList = some [] ∧
    emptyWorld.files "new.bin".toList = none ∧
    (main emptyWorld
      ["rwbin".toList, "99999999999".toList, "new.bin".toList]).world.files "new.bin".toList =
        some [] := by
  decide

/-- C12: the runs on `-h` and on `--help` print the input error message in
front of the help text and return the exit code 1, not 0: `main` has no
branch for the help flag, which falls into the last `else`. -/
theorem help_flag_exits_one :
    (main emptyWorld ["rwbin".toList, "-h".toList]).outcome = .exited 1 ∧
    (main emptyWorld ["rwbin".toList, "-h".toList]).world.stdout =
      (throwHelpMsg (throwInputErrorMsg
        (emptyWorld.print (argvLine ["rwbin".toList, "-h".toList])))).stdout ∧
    (main emptyWorld ["rwbin".toList, "-h".toList]).world.stdout[1]? =
      some "Incorrect input command".toList ∧
    (main emptyWorld ["rwbin".toList, "--help".toList]).outcome = .exited 1 ∧
    (main emptyWorld ["rwbin".toList, "--help".toList]).world.stdout =
      (throwHelpMsg (throwInputErrorMsg
        (emptyWorld.print (argvLine ["rwbin".toList, "--help".toList])))).stdout := by
  decide

/-- C13: with the valid literal `255` and the filename `a:b`, which fails
`isFileName` with and without `.bin`, `main` prints the filename error and
writes no file, but returns the exit code 0, not 1: the branch has no
`return 1` and control reaches the final `return 0`. -/
theorem rejected_filename_exits_zero :
    getDataType "255".toList = DECIMAL ∧
    isFileName "a:b".toList = false ∧ isFileName "a:b.bin".toList = false ∧
    (main emptyWorld ["rwbin".toList, "255".toList, "a:b".toList]).outcome = .exited 0 ∧
    (main emptyWorld ["rwbin".toList, "255".toList, "a:b".toList]).world.stdout =
      [argvLine ["rwbin".toList, "255".toList, "a:b".toList], "Incorrect filename".toList] ∧
    (main emptyWorld ["rwbin".toList, "255".toList, "a:b".toList]).world.files "a:b".toList =
      none ∧
    (main emptyWorld ["rwbin".toList, "255".toList, "a:b".toList]).world.files
      "a:b.bin".toList = none ∧
    (main emptyWorld ["rwbin".toList, "-w".toList, "255".toList, "a:b".toList]).outcome =
      .exited 0 := by
  decide

/-- C14: for a token `v` that `getDataType` does not classify `NONE` and any
filename `f`, the run on `[v, f]` and the run on `[flag, v, f]`, with `flag`
a write flag, both execute lines 294-304 on the value `v` and the filename
`f`, so they pass the same payload, type and filename to `writeBinaryFile`;
they end the same way, leave the same files and, after the line that shows
the arguments, print the same lines. -/
theorem write_mode_assumed (w : World) (prog flag v f : List Char)
    (hv : getDataType v ≠ NONE) (hflag : isWriteFlag flag = true) :
    main w [prog, v, f] = writeBranch (w.print (argvLine [prog, v, f])) v f ∧
    main w [prog, flag, v, f] = writeBranch (w.print (argvLine [prog, flag, v, f])) v f ∧
    (main w [prog, v, f]).outcome = (main w [prog, flag, v, f]).outcome ∧
    (main w [prog, v, f]).world.files = (main w [prog, flag, v, f]).world.files ∧
    (main w [prog, v, f]).world.stdout.drop (w.stdout.length + 1) =
      (main w [prog, flag, v, f]).world.stdout.drop (w.stdout.length + 1) := by
  have e1 := main_value_file w prog v f hv
  have e2 := main_flag_value_file w prog flag v f hflag hv
  obtain ⟨c1, c2, c3⟩ :=
    writeBranch_congr (w.print (argvLine [prog, v, f])) (w.print (argvLine [prog, flag, v, f]))
      v f rfl rfl (by simp [World.print])
  rw [e1, e2]
  refine ⟨rfl, rfl, c1, c2, ?_⟩
  simpa [World.print] using c3

/-- C14, at the value `0xFAB0` and the file `hex.bin`, for the flags `-w` and
`--write`: the three runs write the bytes `0xFA 0xB0` to `hex.bin` and return
the exit code 0. -/
theorem write_mode_assumed_witness :
    getDataType "0xFAB0".toList ≠ NONE ∧
    isWriteFlag "-w".toList = true ∧ isWriteFlag "--write".toList = true ∧
    (main emptyWorld ["rwbin".toList, "0xFAB0".toList, "hex.bin".toList]).outcome =
      (main emptyWorld
        ["rwbin".toList, "-w".toList, "0xFAB0".toList, "hex.bin".toList]).outcome ∧
    (main emptyWorld ["rwbin".toList, "0xFAB0".toList, "hex.bin".toList]).world.files =
      (main emptyWorld
        ["rwbin".toList, "--write".toList, "0xFAB0".toList, "hex.bin".toList]).world.files ∧
    (main emptyWorld ["rwbin".toList, "0xFAB0".toList, "hex.bin".toList]).outcome =
      .exited 0 ∧
    (main emptyWorld ["rwbin".toList, "0xFAB0".toList, "hex.bin".toList]).world.files
      "hex.bin".toList = some [0xFA, 0xB0] :=
  ⟨by decide, by decide, by decide,
    (write_mode_assumed emptyWorld "rwbin".toList "-w".toList "0xFAB0".toList
      "hex.bin".toList (by decide) (by decide)).2.2.1,
    (write_mode_assumed emptyWorld "rwbin".toList "--write".toList "0xFAB0".toList
      "hex.bin".toList (by decide) (by decide)).2.2.2.1,
    by decide, by decide⟩

/-- C15, as the claim states it, fails: with the valid literal `0xFF` and the
filename `report`, the file written is `report`; no file `report.bin`
exists afterwards. -/
theorem report_is_not_renamed :
    getDataType "0xFF".toList ≠ NONE ∧
    (main emptyWorld ["rwbin".toList, "0xFF".toList, "report".toList]).outcome = .exited 0 ∧
    (main emptyWorld ["rwbin".toList, "0xFF".toList, "report".toList]).world.files
      "report.bin".toList = none ∧
    (main emptyWorld ["rwbin".toList, "0xFF".toList, "report".toList]).world.files
      "report".toList = some [0xFF] := by
  decide

/-- C15, amended: `isFileName` accepts `report`, so with a valid literal `v`
the run on `[v, report]` calls `writeBinaryFile` on the name `report` as
given: the file `report.bin` is left as it was, and when `report` can be
opened and the run returns 0, `report` holds the bytes written. -/
theorem report_is_written_as_given (w : World) (prog v : List Char)
    (hv : getDataType v ≠ NONE) :
    isFileName "report".toList = true ∧
    main w [prog, v, "report".toList] =
      afterWrite (writeBinaryFile (w.print (argvLine [prog, v, "report".toList]))
        (getValueString v) (getDataType v) "report".toList) ∧
    (main w [prog, v, "report".toList]).world.files "report.bin".toList =
      w.files "report.bin".toList ∧
    (w.canOpen "report".toList = true →
      (main w [prog, v, "report".toList]).outcome = .exited 0 →
      (main w [prog, v, "report".toList]).world.files "report".toList =
        some (writeBinaryFile (w.print (argvLine [prog, v, "report".toList]))
          (getValueString v) (getDataType v) "report".toList).written) := by
  have hacc : isFileName "report".toList = true := by decide
  have e : main w [prog, v, "report".toList] =
      afterWrite (writeBinaryFile (w.print (argvLine [prog, v, "report".toList]))
        (getValueString v) (getDataType v) "report".toList) := by
    rw [main_value_file w prog v _ hv, writeBranch_accepted _ v _ hacc]
  refine ⟨hacc, e, ?_, ?_⟩
  · rw [e, afterWrite_world, writeBinaryFile_other _ _ _ _ _ (by decide)]
    rfl
  · intro ho hex
    rw [e] at hex ⊢
    rw [afterWrite_world]
    have ho2 : (w.print (argvLine [prog, v, "report".toList])).canOpen "report".toList = true :=
      ho
    exact (writeBinaryFile_file _ _ _ _ ho2).1 (afterWrite_exited _ 0 hex).1

/-- C15 amended, at the literal `0xFF`: the byte `0xFF` is written to
`report`. -/
theorem report_is_written_as_given_witness :
    getDataType "0xFF".toList ≠ NONE ∧
    (main emptyWorld ["rwbin".toList, "0xFF".toList, "report".toList]).world.files
      "report.bin".toList = emptyWorld.files "report.bin".toList ∧
    (main emptyWorld ["rwbin".toList, "0xFF".toList, "report".toList]).world.files
      "report".toList =
        some (writeBinaryFile
          (emptyWorld.print (argvLine ["rwbin".toList, "0xFF".toList, "report".toList]))
          (getValueString "0xFF".toList) (getDataType "0xFF".toList) "report".toList).written :=
  ⟨by decide,
    (report_is_written_as_given emptyWorld "rwbin".toList "0xFF".toList (by decide)).2.2.1,
    (report_is_written_as_given emptyWorld "rwbin".toList "0xFF".toList (by decide)).2.2.2
      rfl (by decide)⟩

/-- C16: a filename that contains one of `< > : ; , ? " * | /` fails
`isFileName`, with and without `.bin` appended; on the write path, with or
without a write flag, `main` then only prints the filename error after the
line that shows the arguments: `writeBinaryFile` is not called and no file
changes. -/
theorem forbidden_filename_rejected (w : World) (prog v f : List Char) (c : Char)
    (hc : c ∈ f) (hf : isForbiddenChar c) (hv : getDataType v ≠ NONE) :
    isFileName f = false ∧ isFileName (f ++ ".bin".toList) = false ∧
    main w [prog, v, f] =
      { outcome := .exited 0,
        world := throwFilenameErrorMsg (w.print (argvLine [prog, v, f])) } ∧
    (∀ flag, isWriteFlag flag = true →
      main w [prog, flag, v, f] =
        { outcome := .exited 0,
          world := throwFilenameErrorMsg (w.print (argvLine [prog, flag, v, f])) }) ∧
    (main w [prog, v, f]).world.files = w.files ∧
    (main w [prog, v, f]).world.stdout =
      w.stdout ++ [argvLine [prog, v, f], "Incorrect filename".toList] := by
  have h1 : isFileName f = false := isFileName_of_forbidden f c hc hf
  have h2 : isFileName (f ++ ".bin".toList) = false :=
    isFileName_of_forbidden _ c (List.mem_append.mpr (Or.inl hc)) hf
  have e : main w [prog, v, f] =
      { outcome := .exited 0,
        world := throwFilenameErrorMsg (w.print (argvLine [prog, v, f])) } := by
    rw [main_value_file w prog v f hv, writeBranch_rejected _ v f h1 h2]
  refine ⟨h1, h2, e, ?_, ?_, ?_⟩
  · intro flag hflag
    rw [main_flag_value_file w prog flag v f hflag hv, writeBranch_rejected _ v f h1 h2]
  · rw [e]; rfl
  · rw [e]
    simp [throwFilenameErrorMsg, World.print]

/-- C16, at the filename `a:b.bin` of the claim. -/
theorem forbidden_filename_rejected_witness :
    (':' ∈ "a:b.bin".toList ∧ isForbiddenChar ':' ∧ getDataType "255".toList ≠ NONE) ∧
    isFileName "a:b.bin".toList = false ∧
    (main emptyWorld ["rwbin".toList, "255".toList, "a:b.bin".toList]).world.stdout =
      [argvLine ["rwbin".toList, "255".toList, "a:b.bin".toList],
        "Incorrect filename".toList] :=
  ⟨⟨by decide, by decide, by decide⟩,
    (forbidden_filename_rejected emptyWorld "rwbin".toList "255".toList "a:b.bin".toList ':'
      (by decide) (by decide) (by decide)).1,
    (forbidden_filename_rejected emptyWorld "rwbin".toList "255".toList "a:b.bin".toList ':'
      (by decide) (by decide) (by decide)).2.2.2.2.2⟩

/-! ## Tokens that are no literal -/

theorem getDataType_unmatched (token : List Char) (h1 : ¬ PrefixToken token)
    (h2 : ¬ ZeroXToken token) (h3 : ¬ DigitsToken token) : getDataType token = NONE := by
  rcases getDataType_not_prefix_cases token h1 with e | e | e
  · exact absurd ((getDataType_eq_HEX_iff token h1).mp e) h2
  · exact absurd ((getDataType_eq_DECIMAL_iff token h1).mp e) h3
  · exact e

theorem getDataType_prefixToken (letter : Char) (payload : List Char)
    (hl : letter = 'b' ∨ letter = 'h' ∨ letter = 'd') (hne : payload ≠ []) :
    getDataType (letter :: apostrophe :: payload) =
      if letter = 'h' then hexLoop payload else NONE := by
  rcases hl with rfl | rfl | rfl
  · rw [getDataType_b payload hne, if_neg (by decide)]
  · rw [getDataType_h payload hne, if_pos rfl]
  · rw [getDataType_d payload hne, if_neg (by decide)]

theorem getDataType_cases (token : List Char) :
    getDataType token = HEX ∨ getDataType token = DECIMAL ∨ getDataType token = NONE := by
  by_cases hp : PrefixToken token
  · obtain ⟨letter, payload, hl, hne, rfl⟩ := hp
    rw [getDataType_prefixToken letter payload hl hne]
    split
    · rcases hexLoop_cases payload with e | e <;> simp [e]
    · simp
  · exact getDataType_not_prefix_cases token hp

/-- C17, as the claim states it, fails: the token `abc` matches none of the
three syntaxes and is classified `NONE`, but `getValueString` returns `abc`,
not the empty string. -/
theorem unmatched_token_value_not_empty :
    ¬ PrefixToken "abc".toList ∧ ¬ ZeroXToken "abc".toList ∧ ¬ DigitsToken "abc".toList ∧
    getDataType "abc".toList = NONE ∧
    getValueString "abc".toList = "abc".toList ∧
    getValueString "abc".toList ≠ [] := by
  refine ⟨not_prefixToken_of_head 'a' _ (by decide), ?_, ?_, by decide, by decide, by decide⟩
  · rintro ⟨x, digits, -, -, -, e⟩
    exact absurd (List.cons.inj e).1 (by decide)
  · rintro ⟨-, h⟩
    exact absurd (h 'a' (by decide)) (by decide)

/-- C17, amended: for a token that matches none of the three literal
syntaxes, `getDataType` returns `NONE`; `getValueString` does no checking and
returns the token itself, or the part after the first two characters when the
token is `0x` or `0X` followed by at least one character, so it returns the
empty string only for the empty token. -/
theorem unmatched_token_value (token : List Char) (h1 : ¬ PrefixToken token)
    (h2 : ¬ ZeroXToken token) (h3 : ¬ DigitsToken token) :
    getDataType token = NONE ∧
    (∀ x rest, (x = 'x' ∨ x = 'X') → rest ≠ [] → token = '0' :: x :: rest →
      getValueString token = rest) ∧
    ((¬ ∃ x rest, (x = 'x' ∨ x = 'X') ∧ rest ≠ [] ∧ token = '0' :: x :: rest) →
      getValueString token = token) ∧
    (getValueString token = [] ↔ token = []) := by
  have hval := getValueString_unprefixed token h1
  have hx : ∀ x rest, (x = 'x' ∨ x = 'X') → rest ≠ [] → token = '0' :: x :: rest →
      getValueString token = rest := by
    intro x rest hx hr e
    have h0 : is0xForm token = true := (is0xForm_iff token).mpr ⟨x, rest, hx, hr, e⟩
    rw [hval, h0, e]
    simp
  have hplain : (¬ ∃ x rest, (x = 'x' ∨ x = 'X') ∧ rest ≠ [] ∧ token = '0' :: x :: rest) →
      getValueString token = token := by
    intro hn
    have h0 : ¬ (is0xForm token = true) := fun e => hn ((is0xForm_iff token).mp e)
    rw [hval, if_neg h0]
    cases token with
    | nil => rfl
    | cons c rest => simp
  refine ⟨getDataType_unmatched token h1 h2 h3, hx, hplain, ?_⟩
  constructor
  · intro e
    by_cases h0 : ∃ x rest, (x = 'x' ∨ x = 'X') ∧ rest ≠ [] ∧ token = '0' :: x :: rest
    · obtain ⟨x, rest, hxx, hr, et⟩ := h0
      rw [hx x rest hxx hr et] at e
      exact absurd e hr
    · rw [hplain h0] at e
      exact e
  · intro e
    rw [e]
    rfl

/-- C17 amended, at the tokens `abc` and `0xZZ`. -/
theorem unmatched_token_value_witness :
    (¬ PrefixToken "0xZZ".toList ∧ ¬ ZeroXToken "0xZZ".toList ∧ ¬ DigitsToken "0xZZ".toList) ∧
    getDataType "0xZZ".toList = NONE ∧
    getValueString "0xZZ".toList = "ZZ".toList ∧
    getValueString "abc".toList = "abc".toList := by
  have h1 : ¬ PrefixToken "0xZZ".toList := not_prefixToken_of_head '0' _ (by decide)
  have h2 : ¬ ZeroXToken "0xZZ".toList := by
    rintro ⟨x, digits, -, -, hall, e⟩
    have e2 : digits = "ZZ".toList := ((List.cons.inj (List.cons.inj e).2).2).symm
    rw [e2] at hall
    exact absurd (hall 'Z' (by decide)) (by decide)
  have h3 : ¬ DigitsToken "0xZZ".toList := by
    rintro ⟨-, h⟩
    exact absurd (h 'x' (by decide)) (by decide)
  exact ⟨⟨h1, h2, h3⟩, (unmatched_token_value "0xZZ".toList h1 h2 h3).1,
    (unmatched_token_value "0xZZ".toList h1 h2 h3).2.1 'x' "ZZ".toList (Or.inl rfl)
      (by decide) rfl,
    by decide⟩

/-- C18, as the claim states it, fails: the payload of `b'01x1` contains `x`,
which is no binary digit, and `getDataType` returns `NONE` on the token. -/
theorem malformed_binary_is_rejected :
    "01x1".toList ≠ [] ∧ 'x' ∈ "01x1".toList ∧ ¬ isBitChar 'x' ∧
    getDataType "b'01x1".toList = NONE ∧
    ¬ (getDataType "b'01x1".toList ≠ NONE) := by
  decide

/-- C18, amended: the test `arg[i] != '0' || arg[i] != '1'` holds of every
character, so the loop of the `b` branch returns `NONE` at the first payload
character: for every token `b'` followed by a non-empty payload that contains
a character other than `0` and `1`, `getDataType` returns `NONE`. -/
theorem malformed_binary_returns_none (payload : List Char) (hne : payload ≠ [])
    (hbad : ∃ c ∈ payload, ¬ isBitChar c) :
    (∀ c : Char, c ≠ '0' ∨ c ≠ '1') ∧
    binaryLoop payload = NONE ∧
    getDataType ('b' :: apostrophe :: payload) = NONE := by
  refine ⟨?_, ?_, getDataType_b payload hne⟩
  · intro c
    by_cases h : c = '0'
    · right
      rw [h]
      decide
    · exact Or.inl h
  · obtain ⟨c, hc, -⟩ := hbad
    cases payload with
    | nil => exact absurd rfl hne
    | cons a rest => exact binaryLoop_cons a rest

/-- C18 amended, at the token `b'01x1` of the claim. -/
theorem malformed_binary_returns_none_witness :
    ("01x1".toList ≠ [] ∧ ∃ c ∈ "01x1".toList, ¬ isBitChar c) ∧
    getDataType "b'01x1".toList = NONE :=
  ⟨⟨by decide, 'x', by decide, by decide⟩,
    (malformed_binary_returns_none "01x1".toList (by decide)
      ⟨'x', by decide, by decide⟩).2.2⟩

/-- C19: a token of length greater than 2 that starts with `b'` or with `d'`
is classified `NONE` whatever follows; `getDataType` returns `BINARY` or
`TEXT` for no token, only `HEX`, `DECIMAL` or `NONE`; and it returns a type
other than `NONE` exactly for `h'` followed by one or more hex digits, for
`0x` or `0X` followed by one or more hex digits, and for a non-empty string of
decimal digits. -/
theorem binary_and_decimal_prefix_never_accepted (token : List Char) :
    (2 < token.length → (token.take 2 = "b'".toList ∨ token.take 2 = "d'".toList) →
      getDataType token = NONE) ∧
    getDataType token ≠ BINARY ∧ getDataType token ≠ TEXT ∧
    (getDataType token = HEX ∨ getDataType token = DECIMAL ∨ getDataType token = NONE) ∧
    (getDataType token ≠ NONE ↔
      ((∃ payload, payload ≠ [] ∧ (∀ c ∈ payload, isHexChar c) ∧
          token = 'h' :: apostrophe :: payload) ∨
        ZeroXToken token ∨ DigitsToken token)) := by
  have hcases := getDataType_cases token
  refine ⟨?_, ?_, ?_, hcases, ?_⟩
  · intro hlen htake
    match token, hlen, htake with
    | a :: b :: c :: rest, _, htake =>
      have hb : "b'".toList = ['b', apostrophe] := by decide
      have hd : "d'".toList = ['d', apostrophe] := by decide
      rw [hb, hd] at htake
      simp only [List.take_succ_cons, List.take_zero, List.cons.injEq, and_true] at htake
      rcases htake with ⟨rfl, rfl⟩ | ⟨rfl, rfl⟩
      · exact getDataType_b (c :: rest) (by simp)
      · exact getDataType_d (c :: rest) (by simp)
  · rcases hcases with e | e | e <;> rw [e] <;> decide
  · rcases hcases with e | e | e <;> rw [e] <;> decide
  · by_cases hp : PrefixToken token
    · obtain ⟨letter, payload, hl, hne, rfl⟩ := hp
      have hz : ¬ ZeroXToken (letter :: apostrophe :: payload) := by
        rintro ⟨x, digits, -, -, -, e⟩
        have : letter = '0' := (List.cons.inj e).1
        subst this
        revert hl
        decide
      have hdg : ¬ DigitsToken (letter :: apostrophe :: payload) := by
        rintro ⟨-, h⟩
        exact absurd (h apostrophe (by simp)) (by decide)
      rw [getDataType_prefixToken letter payload hl hne]
      constructor
      · intro hn
        by_cases hh : letter = 'h'
        · rw [if_pos hh] at hn
          subst hh
          rcases hexLoop_cases payload with e | e
          · exact Or.inl ⟨payload, hne, (hexLoop_eq_HEX_iff payload).mp e, rfl⟩
          · exact absurd e hn
        · rw [if_neg hh] at hn
          exact absurd rfl hn
      · rintro (⟨p, -, hall, e⟩ | h | h)
        · have e1 : letter = 'h' := (List.cons.inj e).1
          have e2 : payload = p := (List.cons.inj (List.cons.inj e).2).2
          rw [if_pos e1, e2, (hexLoop_eq_HEX_iff p).mpr hall]
          decide
        · exact absurd h hz
        · exact absurd h hdg
    · have hh : ¬ ∃ payload, payload ≠ [] ∧ (∀ c ∈ payload, isHexChar c) ∧
          token = 'h' :: apostrophe :: payload := by
        rintro ⟨p, hne, -, e⟩
        exact hp ⟨'h', p, Or.inr (Or.inl rfl), hne, e⟩
      constructor
      · intro hn
        rcases getDataType_not_prefix_cases token hp with e | e | e
        · exact Or.inr (Or.inl ((getDataType_eq_HEX_iff token hp).mp e))
        · exact Or.inr (Or.inr ((getDataType_eq_DECIMAL_iff token hp).mp e))
        · exact absurd e hn
      · rintro (h | h | h)
        · exact absurd h hh
        · rw [(getDataType_eq_HEX_iff token hp).mpr h]
          decide
        · rw [(getDataType_eq_DECIMAL_iff token hp).mpr h]
          decide

/-- C19, at the tokens `b'01101010` and `d'10` of the usage text. -/
theorem binary_and_decimal_prefix_never_accepted_witness :
    getDataType "b'01101010".toList = NONE ∧ getDataType "d'10".toList = NONE :=
  ⟨(binary_and_decimal_prefix_never_accepted "b'01101010".toList).1 (by decide)
      (Or.inl (by decide)),
    (binary_and_decimal_prefix_never_accepted "d'10".toList).1 (by decide)
      (Or.inr (by decide))⟩

/-- C20: for a non-empty filename `f`, `isFileName` gives the same answer on
`f` with `.bin` appended as on `f`, so `f` is rejected and rescued by the
retry exactly when `f` is empty. On the write path an accepted non-empty
filename is the name passed to `writeBinaryFile`, the empty filename is
written as `.bin`, and a rejected non-empty filename only gets the filename
error. -/
theorem bin_retry_rescues_only_empty (w : World) (prog v f : List Char)
    (hv : getDataType v ≠ NONE) :
    (f ≠ [] → isFileName (f ++ ".bin".toList) = isFileName f) ∧
    ((isFileName f = false ∧ isFileName (f ++ ".bin".toList) = true) ↔ f = []) ∧
    (f ≠ [] → isFileName f = true →
      main w [prog, v, f] =
        afterWrite (writeBinaryFile (w.print (argvLine [prog, v, f]))
          (getValueString v) (getDataType v) f)) ∧
    (f = [] →
      main w [prog, v, f] =
        afterWrite (writeBinaryFile (w.print (argvLine [prog, v, f]))
          (getValueString v) (getDataType v) ".bin".toList)) ∧
    (f ≠ [] → isFileName f = false →
      main w [prog, v, f] =
        { outcome := .exited 0,
          world := throwFilenameErrorMsg (w.print (argvLine [prog, v, f])) }) := by
  refine ⟨isFileName_append_bin f, ?_, ?_, ?_, ?_⟩
  · constructor
    · rintro ⟨h1, h2⟩
      by_contra hne
      rw [isFileName_append_bin f hne, h1] at h2
      cases h2
    · intro e
      rw [e]
      decide
  · intro _ hacc
    rw [main_value_file w prog v f hv, writeBranch_accepted _ v f hacc]
  · intro e
    subst e
    rw [main_value_file w prog v [] hv, writeBranch_retry _ v [] (by decide) (by decide)]
    rfl
  · intro hne hrej
    rw [main_value_file w prog v f hv,
      writeBranch_rejected _ v f hrej (by rw [isFileName_append_bin f hne, hrej])]

/-- C20, at the literal `0xFF`: the empty filename is written as `.bin`, and
`hex.bin` is used as given. -/
theorem bin_retry_rescues_only_empty_witness :
    getDataType "0xFF".toList ≠ NONE ∧
    isFileName ("hex.bin".toList ++ ".bin".toList) = isFileName "hex.bin".toList ∧
    (main emptyWorld ["rwbin".toList, "0xFF".toList, []]).world.files ".bin".toList =
      some [0xFF] ∧
    (main emptyWorld ["rwbin".toList, "0xFF".toList, "hex.bin".toList]).world.files
      "hex.bin".toList = some [0xFF] ∧
    (main emptyWorld ["rwbin".toList, "0xFF".toList, "hex.bin".toList]).world.files
      "hex.bin.bin".toList = none :=
  ⟨by decide,
    (bin_retry_rescues_only_empty emptyWorld "rwbin".toList "0xFF".toList "hex.bin".toList
      (by decide)).1 (by decide),
    by decide, by decide, by decide⟩

end Rwbin
